import Mathlib

/-!
Verification development for the Digiko multi-pair DEX contract (V5,
`src/contract/src/lib_v5.rs`).  The contract manages independent trading
pairs; every endpoint reads and mutates only the state of the single pair
it addresses, so we embed the state of one pair.  `BigUint` values are
embedded as `Nat` (arbitrary precision, truncating division, like the
source), addresses as `Nat`, and the token-identifier plumbing
(`TokenIdentifier`, KLV-vs-KDA dispatch, transfer intake) is out of scope
per the specification: an attached payment is embedded as the `Nat` amount
the source extracts from it.  Every fallible endpoint returns
`Except DexErr`; a `require!` failure in the source aborts the whole call
with no state change, which the `step`/`exec` wrappers below reproduce by
keeping the pre-state on error.
-/

namespace Dex

/-- Precision factor for fee calculations (source constant `PRECISION = 1e12`). -/
def PRECISION : Nat := 1000000000000

/-- Minimum liquidity burned on first deposit (source constant `MINIMUM_LIQUIDITY`). -/
def MINIMUM_LIQUIDITY : Nat := 1000

/-- Error outcomes of the fallible endpoints, one per distinct `require!` message. -/
inductive DexErr where
  | pairInactive
  | invalidAmount
  | reservesEmpty
  | invalidOutput
  | outputTooSmall
  | slippageExceeded
  | initialLiquidityTooSmall
  | amountsTooSmall
  | sharesMustBePositive
  | insufficientShares
  | withdrawalTooSmall
  | missingTokenA
  | missingTokenB
  | noPendingA
  | noPendingB
  | noPending
  | notAnLp
  | nothingToClaim
  deriving DecidableEq, Repr

/-- The per-pair storage of the contract (storage mappers of `lib_v5.rs`,
restricted to one `pair_id`; per-account mappers become functions from
addresses). -/
@[ext]
structure PairState where
  reserve_a : Nat
  reserve_b : Nat
  fee_percent : Nat
  pair_is_active : Bool
  owner_shares : Nat
  total_lp_shares : Nat
  lp_list : Finset Nat
  lp_shares : Nat → Nat
  lp_entry_index_a : Nat → Nat
  lp_entry_index_b : Nat → Nat
  fee_per_share_a : Nat
  fee_per_share_b : Nat
  owner_unclaimed_fees_a : Nat
  owner_unclaimed_fees_b : Nat
  pending_a : Nat → Nat
  pending_b : Nat → Nat
  pair_pending_user_count : Nat

/-- State of a pair right after `create_pair` (reserves, shares, fee
accumulators and counters all zero, pair active). -/
def initState (fee : Nat) : PairState :=
  { reserve_a := 0
    reserve_b := 0
    fee_percent := fee
    pair_is_active := true
    owner_shares := 0
    total_lp_shares := 0
    lp_list := ∅
    lp_shares := fun _ => 0
    lp_entry_index_a := fun _ => 0
    lp_entry_index_b := fun _ => 0
    fee_per_share_a := 0
    fee_per_share_b := 0
    owner_unclaimed_fees_a := 0
    owner_unclaimed_fees_b := 0
    pending_a := fun _ => 0
    pending_b := fun _ => 0
    pair_pending_user_count := 0 }

/-- Source helper `user_has_pending`. -/
def user_has_pending (s : PairState) (user : Nat) : Bool :=
  decide (0 < s.pending_a user) || decide (0 < s.pending_b user)

/-- Source helper `track_pending_user_add`. -/
def track_pending_user_add (s : PairState) (user : Nat) (had_pending_before : Bool) :
    PairState :=
  if !had_pending_before && user_has_pending s user then
    { s with pair_pending_user_count := s.pair_pending_user_count + 1 }
  else s

/-- Source helper `track_pending_user_remove` (the stored counter is
decremented only when it is positive). -/
def track_pending_user_remove (s : PairState) (user : Nat) (had_pending_before : Bool) :
    PairState :=
  if had_pending_before && !(user_has_pending s user) then
    { s with pair_pending_user_count :=
        if 0 < s.pair_pending_user_count then s.pair_pending_user_count - 1
        else s.pair_pending_user_count }
  else s

/-- Source helper `get_total_shares_internal`. -/
def get_total_shares_internal (s : PairState) : Nat :=
  s.owner_shares + s.total_lp_shares

/-- Source helper `distribute_fee`: split a swap fee between the platform
owner accumulator and the LP fee-per-share index of the given asset side. -/
def distribute_fee (s : PairState) (fee : Nat) (is_token_a : Bool) : PairState :=
  if fee = 0 then s
  else
    let owner_shares := s.owner_shares
    let total_lp_shares := s.total_lp_shares
    let total_shares := owner_shares + total_lp_shares
    if total_shares = 0 then s
    else
      let precision := PRECISION
      let owner_pct :=
        if 0 < total_shares then owner_shares * precision / total_shares else 0
      let numerator := 9 * owner_pct + precision
      let denominator := 10 * precision
      let owner_portion := fee * numerator / denominator
      let lp_portion := if owner_portion < fee then fee - owner_portion else 0
      if is_token_a then
        let s1 := { s with owner_unclaimed_fees_a := s.owner_unclaimed_fees_a + owner_portion }
        if 0 < total_lp_shares ∧ 0 < lp_portion then
          { s1 with fee_per_share_a :=
              s1.fee_per_share_a + lp_portion * precision / total_lp_shares }
        else s1
      else
        let s1 := { s with owner_unclaimed_fees_b := s.owner_unclaimed_fees_b + owner_portion }
        if 0 < total_lp_shares ∧ 0 < lp_portion then
          { s1 with fee_per_share_b :=
              s1.fee_per_share_b + lp_portion * precision / total_lp_shares }
        else s1

/-- Source helper `claim_pending_fees_internal`: settle the lazily indexed
fees of one LP account; returns the new state and the two payout amounts
sent to the account. -/
def claim_pending_fees_internal (s : PairState) (addr : Nat) : PairState × Nat × Nat :=
  if addr ∉ s.lp_list then (s, 0, 0)
  else
    let shares := s.lp_shares addr
    if shares = 0 then (s, 0, 0)
    else
      let precision := PRECISION
      let current_index_a := s.fee_per_share_a
      let entry_index_a := s.lp_entry_index_a addr
      let pending_fee_a :=
        if entry_index_a < current_index_a then
          (current_index_a - entry_index_a) * shares / precision
        else 0
      let current_index_b := s.fee_per_share_b
      let entry_index_b := s.lp_entry_index_b addr
      let pending_fee_b :=
        if entry_index_b < current_index_b then
          (current_index_b - entry_index_b) * shares / precision
        else 0
      ({ s with
          lp_entry_index_a := Function.update s.lp_entry_index_a addr current_index_a,
          lp_entry_index_b := Function.update s.lp_entry_index_b addr current_index_b },
        pending_fee_a, pending_fee_b)

/-- Source helper `add_lp_shares`: credit shares to an account, registering
it (with fee-entry snapshots at the current indices) when it is new. -/
def add_lp_shares (s : PairState) (addr : Nat) (shares : Nat) : PairState :=
  if addr ∉ s.lp_list then
    { s with
        lp_list := insert addr s.lp_list,
        lp_entry_index_a := Function.update s.lp_entry_index_a addr s.fee_per_share_a,
        lp_entry_index_b := Function.update s.lp_entry_index_b addr s.fee_per_share_b,
        lp_shares := Function.update s.lp_shares addr shares,
        total_lp_shares := s.total_lp_shares + shares }
  else
    { s with
        lp_shares := Function.update s.lp_shares addr (s.lp_shares addr + shares),
        total_lp_shares := s.total_lp_shares + shares }

/-- Endpoint `swapAtoB` (the KLV variant `swapKlvToB` has the same body up
to token plumbing).  Returns the post state, the amount sent to the caller
and the fee handed to `distribute_fee`. -/
def swap_a_to_b (s : PairState) (payment min_output : Nat) :
    Except DexErr (PairState × Nat × Nat) :=
  if s.pair_is_active = false then .error .pairInactive
  else if payment = 0 then .error .invalidAmount
  else if s.reserve_a = 0 ∨ s.reserve_b = 0 then .error .reservesEmpty
  else
    let output := payment * s.reserve_b / (s.reserve_a + payment)
    if output = 0 ∨ s.reserve_b ≤ output then .error .invalidOutput
    else
      let fee := output * s.fee_percent / 100
      let user_gets := output - fee
      if user_gets = 0 then .error .outputTooSmall
      else if user_gets < min_output then .error .slippageExceeded
      else
        let s1 := { s with reserve_a := s.reserve_a + payment,
                           reserve_b := s.reserve_b - output }
        .ok (distribute_fee s1 fee false, user_gets, fee)

/-- Endpoint `swapBtoA` (and its KLV variant `swapKlvToA`). -/
def swap_b_to_a (s : PairState) (payment min_output : Nat) :
    Except DexErr (PairState × Nat × Nat) :=
  if s.pair_is_active = false then .error .pairInactive
  else if payment = 0 then .error .invalidAmount
  else if s.reserve_a = 0 ∨ s.reserve_b = 0 then .error .reservesEmpty
  else
    let output := payment * s.reserve_a / (s.reserve_b + payment)
    if output = 0 ∨ s.reserve_a ≤ output then .error .invalidOutput
    else
      let fee := output * s.fee_percent / 100
      let user_gets := output - fee
      if user_gets = 0 then .error .outputTooSmall
      else if user_gets < min_output then .error .slippageExceeded
      else
        let s1 := { s with reserve_b := s.reserve_b + payment,
                           reserve_a := s.reserve_a - output }
        .ok (distribute_fee s1 fee true, user_gets, fee)

/-- Read-only view `quoteSwap`: returns `(output_after_fee, fee_amount)`. -/
def quote_swap (s : PairState) (input_amount : Nat) (is_a_to_b : Bool) : Nat × Nat :=
  if s.reserve_a = 0 ∨ s.reserve_b = 0 ∨ input_amount = 0 then (0, 0)
  else
    let reserve_in := if is_a_to_b then s.reserve_a else s.reserve_b
    let reserve_out := if is_a_to_b then s.reserve_b else s.reserve_a
    let output := input_amount * reserve_out / (reserve_in + input_amount)
    if output = 0 ∨ reserve_out ≤ output then (0, 0)
    else
      let fee := output * s.fee_percent / 100
      (output - fee, fee)

/-- Amounts reported back by `mint`: shares credited and refunded excess. -/
structure MintResult where
  shares : Nat
  refund_a : Nat
  refund_b : Nat
  deriving DecidableEq, Repr

/-- Endpoint `mint`: single-transaction dual-asset liquidity provision
(`amount_a`, `amount_b` are the amounts the source extracts from the
attached transfer). -/
def mint (s : PairState) (caller amount_a amount_b min_lp_shares : Nat) :
    Except DexErr (PairState × MintResult) :=
  if s.pair_is_active = false then .error .pairInactive
  else if amount_a = 0 then .error .missingTokenA
  else if amount_b = 0 then .error .missingTokenB
  else
    let computed : Except DexErr (Nat × Nat × Nat × Nat × Nat) :=
      if s.reserve_a = 0 ∧ s.reserve_b = 0 then
        let product := amount_a * amount_b
        let sqrt_shares := Nat.sqrt product
        if sqrt_shares ≤ MINIMUM_LIQUIDITY then .error .initialLiquidityTooSmall
        else .ok (sqrt_shares - MINIMUM_LIQUIDITY, amount_a, amount_b, 0, 0)
      else
        let total_shares := s.owner_shares + s.total_lp_shares
        let optimal_b := amount_a * s.reserve_b / s.reserve_a
        let optimal_a := amount_b * s.reserve_a / s.reserve_b
        let used_a := if optimal_b ≤ amount_b then amount_a else optimal_a
        let used_b := if optimal_b ≤ amount_b then optimal_b else amount_b
        let refund_a := if optimal_b ≤ amount_b then 0 else amount_a - optimal_a
        let refund_b := if optimal_b ≤ amount_b then amount_b - optimal_b else 0
        if used_a = 0 ∨ used_b = 0 then .error .amountsTooSmall
        else
          let shares_from_a := used_a * total_shares / s.reserve_a
          let shares_from_b := used_b * total_shares / s.reserve_b
          let new_shares :=
            if shares_from_a < shares_from_b then shares_from_a else shares_from_b
          .ok (new_shares, used_a, used_b, refund_a, refund_b)
    match computed with
    | .error e => .error e
    | .ok (new_shares, used_a, used_b, refund_a, refund_b) =>
      if new_shares < min_lp_shares then .error .slippageExceeded
      else if new_shares = 0 then .error .sharesMustBePositive
      else
        let s1 := (claim_pending_fees_internal s caller).1
        let s2 := { s1 with reserve_a := s1.reserve_a + used_a,
                            reserve_b := s1.reserve_b + used_b }
        .ok (add_lp_shares s2 caller new_shares,
             { shares := new_shares, refund_a := refund_a, refund_b := refund_b })

/-- Endpoints `depositPendingA` / `depositPendingAKlv` (identical math). -/
def deposit_pending_a (s : PairState) (caller amount : Nat) : Except DexErr PairState :=
  if amount = 0 then .error .invalidAmount
  else
    let had_pending := user_has_pending s caller
    let s1 := { s with pending_a :=
        Function.update s.pending_a caller (s.pending_a caller + amount) }
    .ok (track_pending_user_add s1 caller had_pending)

/-- Endpoints `depositPendingB` / `depositPendingBKlv`. -/
def deposit_pending_b (s : PairState) (caller amount : Nat) : Except DexErr PairState :=
  if amount = 0 then .error .invalidAmount
  else
    let had_pending := user_has_pending s caller
    let s1 := { s with pending_b :=
        Function.update s.pending_b caller (s.pending_b caller + amount) }
    .ok (track_pending_user_add s1 caller had_pending)

/-- Endpoint `withdrawPendingA`: returns the post state and the amount sent
back to the caller. -/
def withdraw_pending_a (s : PairState) (caller : Nat) :
    Except DexErr (PairState × Nat) :=
  let pending_amt := s.pending_a caller
  if pending_amt = 0 then .error .noPendingA
  else
    let had_pending := user_has_pending s caller
    let s1 := { s with pending_a := Function.update s.pending_a caller 0 }
    .ok (track_pending_user_remove s1 caller had_pending, pending_amt)

/-- Endpoint `withdrawPendingB`. -/
def withdraw_pending_b (s : PairState) (caller : Nat) :
    Except DexErr (PairState × Nat) :=
  let pending_amt := s.pending_b caller
  if pending_amt = 0 then .error .noPendingB
  else
    let had_pending := user_has_pending s caller
    let s1 := { s with pending_b := Function.update s.pending_b caller 0 }
    .ok (track_pending_user_remove s1 caller had_pending, pending_amt)

/-- Endpoint `withdrawPendingAll`. -/
def withdraw_pending_all (s : PairState) (caller : Nat) :
    Except DexErr (PairState × Nat × Nat) :=
  let pa := s.pending_a caller
  let pb := s.pending_b caller
  if pa = 0 ∧ pb = 0 then .error .noPending
  else
    let s1 := { s with pending_a := Function.update s.pending_a caller 0,
                       pending_b := Function.update s.pending_b caller 0 }
    .ok (track_pending_user_remove s1 caller true, pa, pb)

/-- Endpoint `finalizeLiquidity`: turn the pending deposits of the caller into an
LP position at the current pool ratio. -/
def finalize_liquidity (s : PairState) (caller min_shares : Nat) :
    Except DexErr PairState :=
  if s.pair_is_active = false then .error .pairInactive
  else
    let pending_a := s.pending_a caller
    let pending_b := s.pending_b caller
    if pending_a = 0 then .error .noPendingA
    else if pending_b = 0 then .error .noPendingB
    else
      let computed : Except DexErr (Nat × Nat × Nat) :=
        if s.reserve_a = 0 ∨ s.reserve_b = 0 then
          if pending_a * pending_b < MINIMUM_LIQUIDITY * MINIMUM_LIQUIDITY then
            .error .initialLiquidityTooSmall
          else
            let sqrt_shares := Nat.sqrt (pending_a * pending_b)
            if sqrt_shares ≤ MINIMUM_LIQUIDITY then .error .initialLiquidityTooSmall
            else .ok (pending_a, pending_b, sqrt_shares - MINIMUM_LIQUIDITY)
        else
          let b_needed := pending_a * s.reserve_b / s.reserve_a
          let use_a :=
            if b_needed ≤ pending_b then pending_a
            else pending_b * s.reserve_a / s.reserve_b
          let use_b := if b_needed ≤ pending_b then b_needed else pending_b
          if use_a = 0 ∨ use_b = 0 then .error .amountsTooSmall
          else
            let total_shares := get_total_shares_internal s
            let shares_a := use_a * total_shares / s.reserve_a
            let shares_b := use_b * total_shares / s.reserve_b
            .ok (use_a, use_b, if shares_a < shares_b then shares_a else shares_b)
      match computed with
      | .error e => .error e
      | .ok (use_a, use_b, shares) =>
        if shares < min_shares then .error .slippageExceeded
        else if shares = 0 then .error .sharesMustBePositive
        else
          let s1 := (claim_pending_fees_internal s caller).1
          let new_pending_a := pending_a - use_a
          let new_pending_b := pending_b - use_b
          let s2 := { s1 with
              pending_a := Function.update s1.pending_a caller new_pending_a,
              pending_b := Function.update s1.pending_b caller new_pending_b }
          let s3 :=
            if new_pending_a = 0 ∧ new_pending_b = 0 then
              { s2 with pair_pending_user_count :=
                  if 0 < s2.pair_pending_user_count then s2.pair_pending_user_count - 1
                  else s2.pair_pending_user_count }
            else s2
          let s4 := { s3 with reserve_a := s3.reserve_a + use_a,
                              reserve_b := s3.reserve_b + use_b }
          .ok (add_lp_shares s4 caller shares)

/-- Endpoint `removeLiquidity`: burn shares and pay out the proportional
reserves.  Returns the post state and the two payout amounts. -/
def remove_liquidity (s : PairState) (caller shares_to_remove : Nat) :
    Except DexErr (PairState × Nat × Nat) :=
  let lp_shares_bal := s.lp_shares caller
  if lp_shares_bal < shares_to_remove then .error .insufficientShares
  else if shares_to_remove = 0 then .error .sharesMustBePositive
  else
    let s1 := (claim_pending_fees_internal s caller).1
    let total_shares := get_total_shares_internal s1
    let amount_a := shares_to_remove * s1.reserve_a / total_shares
    let amount_b := shares_to_remove * s1.reserve_b / total_shares
    if amount_a = 0 ∧ amount_b = 0 then .error .withdrawalTooSmall
    else
      let new_lp_shares := lp_shares_bal - shares_to_remove
      let s2 :=
        if new_lp_shares = 0 then
          { s1 with
              lp_shares := Function.update s1.lp_shares caller 0,
              lp_entry_index_a := Function.update s1.lp_entry_index_a caller 0,
              lp_entry_index_b := Function.update s1.lp_entry_index_b caller 0,
              lp_list := s1.lp_list.erase caller }
        else { s1 with lp_shares := Function.update s1.lp_shares caller new_lp_shares }
      let s3 := { s2 with
          total_lp_shares := s2.total_lp_shares - shares_to_remove,
          reserve_a := s2.reserve_a - amount_a,
          reserve_b := s2.reserve_b - amount_b }
      .ok (s3, amount_a, amount_b)

/-- Endpoint `claimLpFees`. -/
def claim_lp_fees (s : PairState) (caller : Nat) :
    Except DexErr (PairState × Nat × Nat) :=
  if caller ∉ s.lp_list then .error .notAnLp
  else .ok (claim_pending_fees_internal s caller)

/-- Endpoint `ownerRemoveLiquidity` (legacy owner-shares path). -/
def owner_remove_liquidity (s : PairState) (shares_to_remove : Nat) :
    Except DexErr (PairState × Nat × Nat) :=
  if s.owner_shares < shares_to_remove then .error .insufficientShares
  else if shares_to_remove = 0 then .error .sharesMustBePositive
  else
    let total_shares := get_total_shares_internal s
    let amount_a := shares_to_remove * s.reserve_a / total_shares
    let amount_b := shares_to_remove * s.reserve_b / total_shares
    .ok ({ s with owner_shares := s.owner_shares - shares_to_remove,
                  reserve_a := s.reserve_a - amount_a,
                  reserve_b := s.reserve_b - amount_b }, amount_a, amount_b)

/-- Endpoint `ownerClaimFees`. -/
def owner_claim_fees (s : PairState) : Except DexErr (PairState × Nat × Nat) :=
  let fees_a := s.owner_unclaimed_fees_a
  let fees_b := s.owner_unclaimed_fees_b
  if fees_a = 0 ∧ fees_b = 0 then .error .nothingToClaim
  else .ok ({ s with owner_unclaimed_fees_a := 0, owner_unclaimed_fees_b := 0 },
            fees_a, fees_b)

/-- Endpoint `setPairActive`. -/
def set_pair_active (s : PairState) (b : Bool) : PairState :=
  { s with pair_is_active := b }

/-- Endpoint `setPairFee`. -/
def set_pair_fee (s : PairState) (f : Nat) : Except DexErr PairState :=
  if f < 1 ∨ 10 < f then .error .invalidAmount else .ok { s with fee_percent := f }

/-- One caller-issued operation on a pair (every state-mutating endpoint of
the contract that touches per-pair state). -/
inductive Op where
  | mintOp (caller amount_a amount_b min_lp_shares : Nat)
  | finalizeOp (caller min_shares : Nat)
  | removeOp (caller shares : Nat)
  | swapABOp (payment min_output : Nat)
  | swapBAOp (payment min_output : Nat)
  | claimOp (caller : Nat)
  | depositAOp (caller amount : Nat)
  | depositBOp (caller amount : Nat)
  | withdrawAOp (caller : Nat)
  | withdrawBOp (caller : Nat)
  | withdrawAllOp (caller : Nat)
  | ownerRemoveOp (shares : Nat)
  | ownerClaimOp
  | setActiveOp (b : Bool)
  | setFeeOp (f : Nat)

/-- Apply one operation, keeping only the state component of its result. -/
def applyOp (s : PairState) : Op → Except DexErr PairState
  | .mintOp c a b m => (mint s c a b m).map Prod.fst
  | .finalizeOp c m => finalize_liquidity s c m
  | .removeOp c n => (remove_liquidity s c n).map Prod.fst
  | .swapABOp p m => (swap_a_to_b s p m).map Prod.fst
  | .swapBAOp p m => (swap_b_to_a s p m).map Prod.fst
  | .claimOp c => (claim_lp_fees s c).map Prod.fst
  | .depositAOp c a => deposit_pending_a s c a
  | .depositBOp c a => deposit_pending_b s c a
  | .withdrawAOp c => (withdraw_pending_a s c).map Prod.fst
  | .withdrawBOp c => (withdraw_pending_b s c).map Prod.fst
  | .withdrawAllOp c => (withdraw_pending_all s c).map Prod.fst
  | .ownerRemoveOp n => (owner_remove_liquidity s n).map Prod.fst
  | .ownerClaimOp => (owner_claim_fees s).map Prod.fst
  | .setActiveOp b => .ok (set_pair_active s b)
  | .setFeeOp f => set_pair_fee s f

/-- All-or-nothing execution of one operation: a failed `require!` leaves
the pair state unchanged. -/
def step (s : PairState) (op : Op) : PairState :=
  match applyOp s op with
  | .ok t => t
  | .error _ => s

/-- Serial execution of a sequence of operations. -/
def exec (s : PairState) : List Op → PairState
  | [] => s
  | op :: rest => exec (step s op) rest

/-- Share-ledger consistency: `total_lp_shares` is the sum of the balances
of the registered LPs, and an account is registered exactly when its
balance is nonzero. -/
def lpLedgerConsistent (s : PairState) : Prop :=
  (∀ a, a ∈ s.lp_list ↔ s.lp_shares a ≠ 0) ∧
  s.total_lp_shares = ∑ a ∈ s.lp_list, s.lp_shares a

/-- Fee-index soundness: the entry snapshots of every registered LP are
bounded by the global fee-per-share indices of the pair. -/
def feeIndexBounded (s : PairState) : Prop :=
  ∀ a ∈ s.lp_list,
    s.lp_entry_index_a a ≤ s.fee_per_share_a ∧ s.lp_entry_index_b a ≤ s.fee_per_share_b

/-- Demo pair for the swap scenario of the specification: reserves
`(100000, 100000)`, fee 1 percent, no shares outstanding. -/
def sSwapDemo : PairState :=
  { initState 1 with reserve_a := 100000, reserve_b := 100000 }

/-- Demo pair with ratio 2:1 reserves and one LP holding all 200 shares. -/
def sMintDemo : PairState :=
  { initState 1 with
      reserve_a := 200
      reserve_b := 100
      total_lp_shares := 200
      lp_list := {7}
      lp_shares := fun a => if a = 7 then 200 else 0 }

/-- Demo pair for fee distribution: 1000 LP shares, no owner shares. -/
def sFeeDemo : PairState :=
  { initState 1 with
      reserve_a := 100000
      reserve_b := 100000
      total_lp_shares := 1000
      lp_list := {3}
      lp_shares := fun a => if a = 3 then 1000 else 0 }

/-! ### Helper lemmas about the internal helpers -/

theorem distribute_fee_fields (s : PairState) (fee : Nat) (ta : Bool) :
    (distribute_fee s fee ta).reserve_a = s.reserve_a ∧
    (distribute_fee s fee ta).reserve_b = s.reserve_b ∧
    (distribute_fee s fee ta).fee_percent = s.fee_percent ∧
    (distribute_fee s fee ta).pair_is_active = s.pair_is_active ∧
    (distribute_fee s fee ta).owner_shares = s.owner_shares ∧
    (distribute_fee s fee ta).total_lp_shares = s.total_lp_shares ∧
    (distribute_fee s fee ta).lp_list = s.lp_list ∧
    (distribute_fee s fee ta).lp_shares = s.lp_shares ∧
    (distribute_fee s fee ta).lp_entry_index_a = s.lp_entry_index_a ∧
    (distribute_fee s fee ta).lp_entry_index_b = s.lp_entry_index_b ∧
    (distribute_fee s fee ta).pending_a = s.pending_a ∧
    (distribute_fee s fee ta).pending_b = s.pending_b ∧
    (distribute_fee s fee ta).pair_pending_user_count = s.pair_pending_user_count := by
  simp only [distribute_fee]
  repeat' split
  all_goals simp

theorem distribute_fee_mono_a (s : PairState) (fee : Nat) (ta : Bool) :
    s.fee_per_share_a ≤ (distribute_fee s fee ta).fee_per_share_a := by
  simp only [distribute_fee]
  repeat' split
  all_goals simp

theorem distribute_fee_mono_b (s : PairState) (fee : Nat) (ta : Bool) :
    s.fee_per_share_b ≤ (distribute_fee s fee ta).fee_per_share_b := by
  simp only [distribute_fee]
  repeat' split
  all_goals simp

theorem cpfi_fields (s : PairState) (addr : Nat) :
    ((claim_pending_fees_internal s addr).1).reserve_a = s.reserve_a ∧
    ((claim_pending_fees_internal s addr).1).reserve_b = s.reserve_b ∧
    ((claim_pending_fees_internal s addr).1).fee_percent = s.fee_percent ∧
    ((claim_pending_fees_internal s addr).1).pair_is_active = s.pair_is_active ∧
    ((claim_pending_fees_internal s addr).1).owner_shares = s.owner_shares ∧
    ((claim_pending_fees_internal s addr).1).total_lp_shares = s.total_lp_shares ∧
    ((claim_pending_fees_internal s addr).1).lp_list = s.lp_list ∧
    ((claim_pending_fees_internal s addr).1).lp_shares = s.lp_shares ∧
    ((claim_pending_fees_internal s addr).1).fee_per_share_a = s.fee_per_share_a ∧
    ((claim_pending_fees_internal s addr).1).fee_per_share_b = s.fee_per_share_b ∧
    ((claim_pending_fees_internal s addr).1).owner_unclaimed_fees_a = s.owner_unclaimed_fees_a ∧
    ((claim_pending_fees_internal s addr).1).owner_unclaimed_fees_b = s.owner_unclaimed_fees_b ∧
    ((claim_pending_fees_internal s addr).1).pending_a = s.pending_a ∧
    ((claim_pending_fees_internal s addr).1).pending_b = s.pending_b ∧
    ((claim_pending_fees_internal s addr).1).pair_pending_user_count
      = s.pair_pending_user_count := by
  simp only [claim_pending_fees_internal]
  repeat' split
  all_goals simp

theorem add_lp_shares_fields (s : PairState) (addr n : Nat) :
    (add_lp_shares s addr n).reserve_a = s.reserve_a ∧
    (add_lp_shares s addr n).reserve_b = s.reserve_b ∧
    (add_lp_shares s addr n).fee_percent = s.fee_percent ∧
    (add_lp_shares s addr n).pair_is_active = s.pair_is_active ∧
    (add_lp_shares s addr n).owner_shares = s.owner_shares ∧
    (add_lp_shares s addr n).total_lp_shares = s.total_lp_shares + n ∧
    (add_lp_shares s addr n).lp_list = insert addr s.lp_list ∧
    (add_lp_shares s addr n).fee_per_share_a = s.fee_per_share_a ∧
    (add_lp_shares s addr n).fee_per_share_b = s.fee_per_share_b ∧
    (add_lp_shares s addr n).pending_a = s.pending_a ∧
    (add_lp_shares s addr n).pending_b = s.pending_b ∧
    (add_lp_shares s addr n).pair_pending_user_count = s.pair_pending_user_count := by
  simp only [add_lp_shares]
  split
  · simp
  · next hmem =>
    simp only [not_not] at hmem
    simp [Finset.insert_eq_self.mpr hmem]

theorem add_lp_shares_balance (s : PairState) (addr n : Nat) :
    (add_lp_shares s addr n).lp_shares addr =
      (if addr ∈ s.lp_list then s.lp_shares addr + n else n) := by
  simp only [add_lp_shares]
  split
  · next h => simp [h]
  · next h => simp only [not_not] at h; simp [h]

/-! ### Arithmetic lemmas -/

theorem constant_product_step (ra rb x : Nat)
    (hlt : x * rb / (ra + x) < rb) :
    ra * rb ≤ (ra + x) * (rb - x * rb / (ra + x)) := by
  set q := x * rb / (ra + x) with hq
  have h1 : q * (ra + x) ≤ x * rb := Nat.div_mul_le_self _ _
  have hqle : q ≤ rb := le_of_lt hlt
  have hsplit : (ra + x) * rb = (ra + x) * q + (ra + x) * (rb - q) := by
    rw [← Nat.mul_add, Nat.add_sub_cancel' hqle]
  have hexp : (ra + x) * rb = ra * rb + x * rb := Nat.add_mul ra x rb
  have h1' : (ra + x) * q ≤ x * rb := by rw [Nat.mul_comm]; exact h1
  linarith [hsplit, hexp, h1']

/-! ### Claim theorems -/

/-- Claim C1: with both reserves positive, a successful swap of `x` against
input-side reserve and output-side reserve computes
`raw_output = floor(x * Rout / (Rin + x))`, `fee = floor(raw_output * f / 100)`,
pays `raw_output - fee` to the caller, and stores reserves
`(Rin + x, Rout - raw_output)` (both swap directions). -/
theorem swap_formula_correct (s : PairState) (x min_output : Nat)
    (hact : s.pair_is_active = true) (hx : 0 < x)
    (hA : 0 < s.reserve_a) (hB : 0 < s.reserve_b) :
    (∀ raw fee, raw = x * s.reserve_b / (s.reserve_a + x) →
      fee = raw * s.fee_percent / 100 →
      0 < raw → raw < s.reserve_b → 0 < raw - fee → min_output ≤ raw - fee →
      ∃ t, swap_a_to_b s x min_output = .ok t ∧
        t.2.1 = raw - fee ∧ t.2.2 = fee ∧
        t.1.reserve_a = s.reserve_a + x ∧ t.1.reserve_b = s.reserve_b - raw) ∧
    (∀ raw fee, raw = x * s.reserve_a / (s.reserve_b + x) →
      fee = raw * s.fee_percent / 100 →
      0 < raw → raw < s.reserve_a → 0 < raw - fee → min_output ≤ raw - fee →
      ∃ t, swap_b_to_a s x min_output = .ok t ∧
        t.2.1 = raw - fee ∧ t.2.2 = fee ∧
        t.1.reserve_b = s.reserve_b + x ∧ t.1.reserve_a = s.reserve_a - raw) := by
  constructor
  · intro raw fee hraw hfee h1 h2 h3 h4
    subst hraw; subst hfee
    have hswap : swap_a_to_b s x min_output =
        .ok (distribute_fee
              { s with reserve_a := s.reserve_a + x,
                       reserve_b := s.reserve_b - x * s.reserve_b / (s.reserve_a + x) }
              (x * s.reserve_b / (s.reserve_a + x) * s.fee_percent / 100) false,
            x * s.reserve_b / (s.reserve_a + x) -
              x * s.reserve_b / (s.reserve_a + x) * s.fee_percent / 100,
            x * s.reserve_b / (s.reserve_a + x) * s.fee_percent / 100) := by
      simp only [swap_a_to_b, hact]
      rw [if_neg (by simp), if_neg (by omega), if_neg (by omega),
          if_neg (by omega), if_neg (by omega), if_neg (by omega)]
    refine ⟨_, hswap, rfl, rfl, ?_, ?_⟩
    · exact (distribute_fee_fields _ _ _).1
    · exact (distribute_fee_fields _ _ _).2.1
  · intro raw fee hraw hfee h1 h2 h3 h4
    subst hraw; subst hfee
    have hswap : swap_b_to_a s x min_output =
        .ok (distribute_fee
              { s with reserve_b := s.reserve_b + x,
                       reserve_a := s.reserve_a - x * s.reserve_a / (s.reserve_b + x) }
              (x * s.reserve_a / (s.reserve_b + x) * s.fee_percent / 100) true,
            x * s.reserve_a / (s.reserve_b + x) -
              x * s.reserve_a / (s.reserve_b + x) * s.fee_percent / 100,
            x * s.reserve_a / (s.reserve_b + x) * s.fee_percent / 100) := by
      simp only [swap_b_to_a, hact]
      rw [if_neg (by simp), if_neg (by omega), if_neg (by omega),
          if_neg (by omega), if_neg (by omega), if_neg (by omega)]
    refine ⟨_, hswap, rfl, rfl, ?_, ?_⟩
    · exact (distribute_fee_fields _ _ _).2.1
    · exact (distribute_fee_fields _ _ _).1

/-- Claim C1 witness: the spec scenario: reserves `(100000, 100000)`, fee 1,
`swap_a_to_b` with input 10000 and `min_output = 0` pays 9000, distributes
fee 90, and leaves reserves `(110000, 90910)`. -/
theorem swap_formula_correct_witness :
    ∃ t, swap_a_to_b sSwapDemo 10000 0 = .ok t ∧
      t.2.1 = 9000 ∧ t.2.2 = 90 ∧
      t.1.reserve_a = 110000 ∧ t.1.reserve_b = 90910 := by
  obtain ⟨t, h, h1, h2, h3, h4⟩ :=
    (swap_formula_correct sSwapDemo 10000 0 (by decide) (by decide) (by decide)
      (by decide)).1 9090 90 (by decide) (by decide) (by decide) (by decide)
      (by decide) (by decide)
  exact ⟨t, h, by omega, by omega, by rw [h3]; decide, by rw [h4]; decide⟩

/-- Claim C4: across every successful swap, in either direction, the product
of the stored reserves does not decrease. -/
theorem swap_constant_product (s : PairState) (x m : Nat) (t : PairState × Nat × Nat) :
    (swap_a_to_b s x m = .ok t →
      s.reserve_a * s.reserve_b ≤ t.1.reserve_a * t.1.reserve_b) ∧
    (swap_b_to_a s x m = .ok t →
      s.reserve_a * s.reserve_b ≤ t.1.reserve_a * t.1.reserve_b) := by
  constructor
  · intro h
    simp only [swap_a_to_b] at h
    split at h
    · simp [Except.map] at h
    · split at h
      · simp [Except.map] at h
      · split at h
        · simp [Except.map] at h
        · split at h
          · simp [Except.map] at h
          · split at h
            · simp [Except.map] at h
            · split at h
              · simp [Except.map] at h
              · next hres hout _ _ =>
                simp only [Except.ok.injEq] at h
                subst h
                have hfa := (distribute_fee_fields
                  { s with reserve_a := s.reserve_a + x,
                           reserve_b := s.reserve_b - x * s.reserve_b / (s.reserve_a + x) }
                  (x * s.reserve_b / (s.reserve_a + x) * s.fee_percent / 100) false)
                rw [hfa.1, hfa.2.1]
                exact constant_product_step s.reserve_a s.reserve_b x (by omega)
  · intro h
    simp only [swap_b_to_a] at h
    split at h
    · simp [Except.map] at h
    · split at h
      · simp [Except.map] at h
      · split at h
        · simp [Except.map] at h
        · split at h
          · simp [Except.map] at h
          · split at h
            · simp [Except.map] at h
            · split at h
              · simp [Except.map] at h
              · next hres hout _ _ =>
                simp only [Except.ok.injEq] at h
                subst h
                have hfa := (distribute_fee_fields
                  { s with reserve_b := s.reserve_b + x,
                           reserve_a := s.reserve_a - x * s.reserve_a / (s.reserve_b + x) }
                  (x * s.reserve_a / (s.reserve_b + x) * s.fee_percent / 100) true)
                rw [hfa.1, hfa.2.1]
                have := constant_product_step s.reserve_b s.reserve_a x (by omega)
                calc s.reserve_a * s.reserve_b = s.reserve_b * s.reserve_a := Nat.mul_comm _ _
                  _ ≤ (s.reserve_b + x) *
                        (s.reserve_a - x * s.reserve_a / (s.reserve_b + x)) := this
                  _ = (s.reserve_a - x * s.reserve_a / (s.reserve_b + x)) *
                        (s.reserve_b + x) := Nat.mul_comm _ _

/-- Claim C4 witness: the demo swap keeps the constant product. -/
theorem swap_constant_product_witness :
    ∃ t, swap_a_to_b sSwapDemo 10000 0 = .ok t ∧
      sSwapDemo.reserve_a * sSwapDemo.reserve_b ≤ t.1.reserve_a * t.1.reserve_b := by
  refine ⟨_, rfl, ?_⟩
  exact (swap_constant_product sSwapDemo 10000 0 _).1 rfl

/-- The owner portion of the blended fee split never exceeds the fee. -/
theorem owner_portion_le (owner total fee : Nat) (h : owner ≤ total) (ht : 0 < total) :
    fee * (9 * (owner * PRECISION / total) + PRECISION) / (10 * PRECISION) ≤ fee := by
  have h1 : owner * PRECISION / total ≤ PRECISION := by
    have h2 : owner * PRECISION ≤ total * PRECISION := Nat.mul_le_mul_right _ h
    calc owner * PRECISION / total ≤ total * PRECISION / total := Nat.div_le_div_right h2
      _ = PRECISION := by rw [Nat.mul_comm, Nat.mul_div_cancel _ ht]
  have h4 : 9 * (owner * PRECISION / total) + PRECISION ≤ 10 * PRECISION := by
    have : (0 : Nat) < PRECISION := by decide
    omega
  have h5 : 0 < 10 * PRECISION := by decide
  calc fee * (9 * (owner * PRECISION / total) + PRECISION) / (10 * PRECISION)
      ≤ fee * (10 * PRECISION) / (10 * PRECISION) :=
        Nat.div_le_div_right (Nat.mul_le_mul_left _ h4)
    _ = fee := Nat.mul_div_cancel _ h5

/-- Claim C5: `distribute_fee` is a no-op on zero fee or zero total shares;
otherwise it credits the blended owner portion to the unclaimed platform
accumulator of the swapped side, the LP portion is exactly the remainder,
and the fee-per-share index of that side grows by
`floor(lp_portion * PRECISION / total_lp_shares)` exactly when there are LP
shares and a positive LP portion. -/
theorem distribute_fee_spec (s : PairState) (fee : Nat) (is_token_a : Bool) :
    (fee = 0 → distribute_fee s fee is_token_a = s) ∧
    (s.owner_shares + s.total_lp_shares = 0 → distribute_fee s fee is_token_a = s) ∧
    (0 < fee → 0 < s.owner_shares + s.total_lp_shares →
      ∀ owner_pct owner_portion lp_portion,
      owner_pct = s.owner_shares * PRECISION / (s.owner_shares + s.total_lp_shares) →
      owner_portion = fee * (9 * owner_pct + PRECISION) / (10 * PRECISION) →
      lp_portion = fee - owner_portion →
      owner_portion + lp_portion = fee ∧
      (is_token_a = true →
        (distribute_fee s fee is_token_a).owner_unclaimed_fees_a
            = s.owner_unclaimed_fees_a + owner_portion ∧
        (distribute_fee s fee is_token_a).owner_unclaimed_fees_b
            = s.owner_unclaimed_fees_b ∧
        (distribute_fee s fee is_token_a).fee_per_share_a
            = s.fee_per_share_a +
              (if 0 < s.total_lp_shares ∧ 0 < lp_portion then
                lp_portion * PRECISION / s.total_lp_shares else 0) ∧
        (distribute_fee s fee is_token_a).fee_per_share_b = s.fee_per_share_b) ∧
      (is_token_a = false →
        (distribute_fee s fee is_token_a).owner_unclaimed_fees_b
            = s.owner_unclaimed_fees_b + owner_portion ∧
        (distribute_fee s fee is_token_a).owner_unclaimed_fees_a
            = s.owner_unclaimed_fees_a ∧
        (distribute_fee s fee is_token_a).fee_per_share_b
            = s.fee_per_share_b +
              (if 0 < s.total_lp_shares ∧ 0 < lp_portion then
                lp_portion * PRECISION / s.total_lp_shares else 0) ∧
        (distribute_fee s fee is_token_a).fee_per_share_a = s.fee_per_share_a)) := by
  refine ⟨fun h => by simp [distribute_fee, h], fun h => ?_, fun hf ht => ?_⟩
  · by_cases hfe : fee = 0 <;> simp [distribute_fee, hfe, h]
  · intro owner_pct owner_portion lp_portion hpct hop hlp
    have hle : owner_portion ≤ fee := by
      rw [hop, hpct]
      exact owner_portion_le s.owner_shares (s.owner_shares + s.total_lp_shares) fee
        (Nat.le_add_right _ _) ht
    have hred : distribute_fee s fee is_token_a =
        (if is_token_a then
          (if 0 < s.total_lp_shares ∧ 0 < lp_portion then
            { s with owner_unclaimed_fees_a := s.owner_unclaimed_fees_a + owner_portion,
                     fee_per_share_a := s.fee_per_share_a +
                       lp_portion * PRECISION / s.total_lp_shares }
          else
            { s with owner_unclaimed_fees_a := s.owner_unclaimed_fees_a + owner_portion })
        else
          (if 0 < s.total_lp_shares ∧ 0 < lp_portion then
            { s with owner_unclaimed_fees_b := s.owner_unclaimed_fees_b + owner_portion,
                     fee_per_share_b := s.fee_per_share_b +
                       lp_portion * PRECISION / s.total_lp_shares }
          else
            { s with owner_unclaimed_fees_b := s.owner_unclaimed_fees_b + owner_portion })) := by
      simp only [distribute_fee]
      rw [if_neg (by omega), if_neg (by omega), if_pos ht]
      rw [← hpct, ← hop]
      have hlp2 : (if owner_portion < fee then fee - owner_portion else 0) = lp_portion := by
        rw [hlp]; split
        · rfl
        · omega
      rw [hlp2]
    refine ⟨by omega, fun hta => ?_, fun hta => ?_⟩
    · subst hta
      rw [hred]
      simp only [if_pos rfl]
      by_cases hc : 0 < s.total_lp_shares ∧ 0 < lp_portion
      · simp [hc]
      · simp [hc]
    · subst hta
      rw [hred]
      simp only [Bool.false_eq_true, if_neg (Bool.false_ne_true)]
      by_cases hc : 0 < s.total_lp_shares ∧ 0 < lp_portion
      · simp [hc]
      · simp [hc]

/-- Claim C5 witness: on a pair with 1000 LP shares and no owner shares, a
fee of 100 on side B splits into owner portion 10 and LP portion 90, and
the side-B index grows by `90 * PRECISION / 1000`. -/
theorem distribute_fee_spec_witness :
    (distribute_fee sFeeDemo 100 false).owner_unclaimed_fees_b = 10 ∧
    (distribute_fee sFeeDemo 100 false).fee_per_share_b = 90000000000 := by
  obtain ⟨hsum, _, hb⟩ := (distribute_fee_spec sFeeDemo 100 false).2.2 (by decide) (by decide)
    0 10 90 (by decide) (by decide) (by decide)
  obtain ⟨h1, _, h3, _⟩ := hb rfl
  refine ⟨by rw [h1]; decide, by rw [h3]; decide⟩

/-- Claim C9: depositing `x > 0` of pending A from a zero pending-A balance
and immediately withdrawing pending A returns exactly `x` and restores the
entire pair state (reserves, shares, fee indices, pending counter). -/
theorem deposit_withdraw_roundtrip (s : PairState) (acct x : Nat)
    (h0 : s.pending_a acct = 0) (hx : 0 < x) :
    ∃ s1, deposit_pending_a s acct x = .ok s1 ∧
      withdraw_pending_a s1 acct = .ok (s, x) := by
  have hx0 : x ≠ 0 := by omega
  have hupd : Function.update s.pending_a acct 0 = s.pending_a := by
    rw [← h0]
    exact Function.update_eq_self acct s.pending_a
  by_cases hb : 0 < s.pending_b acct
  · refine ⟨{ s with pending_a := Function.update s.pending_a acct (s.pending_a acct + x) },
      ?_, ?_⟩
    · simp only [deposit_pending_a, track_pending_user_add, user_has_pending]
      rw [if_neg hx0]
      simp [hb]
    · simp only [withdraw_pending_a, track_pending_user_remove, user_has_pending]
      simp [h0, hx0, hb, hupd]
  · have hb0 : s.pending_b acct = 0 := by omega
    refine ⟨{ s with
        pending_a := Function.update s.pending_a acct (s.pending_a acct + x),
        pair_pending_user_count := s.pair_pending_user_count + 1 }, ?_, ?_⟩
    · simp only [deposit_pending_a, track_pending_user_add, user_has_pending]
      rw [if_neg hx0]
      simp [h0, hb0, hx]
    · simp only [withdraw_pending_a, track_pending_user_remove, user_has_pending]
      simp [h0, hx0, hb0, hupd, hx]

/-- Claim C9 witness: a concrete deposit of 42 into a fresh pair round-trips. -/
theorem deposit_withdraw_roundtrip_witness :
    ∃ s1, deposit_pending_a (initState 1) 5 42 = .ok s1 ∧
      withdraw_pending_a s1 5 = .ok (initState 1, 42) :=
  deposit_withdraw_roundtrip (initState 1) 5 42 rfl (by decide)

/-- Claim C10: whenever a swap succeeds, the read-only `quote_swap` view on
the same input and direction returns exactly the caller amount and the fee
of the swap; and when both reserves are positive and the swap would fail
with `InvalidOutput`, `quote_swap` returns `(0, 0)`. -/
theorem quote_swap_matches_swap (s : PairState) (x m : Nat) :
    (∀ t, swap_a_to_b s x m = .ok t → quote_swap s x true = (t.2.1, t.2.2)) ∧
    (∀ t, swap_b_to_a s x m = .ok t → quote_swap s x false = (t.2.1, t.2.2)) ∧
    (0 < s.reserve_a → 0 < s.reserve_b →
      swap_a_to_b s x m = .error .invalidOutput → quote_swap s x true = (0, 0)) ∧
    (0 < s.reserve_a → 0 < s.reserve_b →
      swap_b_to_a s x m = .error .invalidOutput → quote_swap s x false = (0, 0)) := by
  refine ⟨?_, ?_, ?_, ?_⟩
  · intro t h
    simp only [swap_a_to_b] at h
    split at h
    · simp [Except.map] at h
    · split at h
      · simp [Except.map] at h
      · split at h
        · simp [Except.map] at h
        · split at h
          · simp [Except.map] at h
          · split at h
            · simp [Except.map] at h
            · split at h
              · simp [Except.map] at h
              · rename_i hact hx0 hres hout hug hm
                simp only [Except.ok.injEq] at h
                subst h
                have h1 : ¬(s.reserve_a = 0 ∨ s.reserve_b = 0 ∨ x = 0) := by omega
                simp [quote_swap, h1, hout]
  · intro t h
    simp only [swap_b_to_a] at h
    split at h
    · simp [Except.map] at h
    · split at h
      · simp [Except.map] at h
      · split at h
        · simp [Except.map] at h
        · split at h
          · simp [Except.map] at h
          · split at h
            · simp [Except.map] at h
            · split at h
              · simp [Except.map] at h
              · rename_i hact hx0 hres hout hug hm
                simp only [Except.ok.injEq] at h
                subst h
                have h1 : ¬(s.reserve_a = 0 ∨ s.reserve_b = 0 ∨ x = 0) := by omega
                simp [quote_swap, h1, hout]
  · intro hA hB h
    simp only [swap_a_to_b] at h
    split at h
    · simp [Except.map] at h
    · split at h
      · simp [Except.map] at h
      · split at h
        · simp [Except.map] at h
        · split at h
          · rename_i hact hx0 hres hout
            have h1 : ¬(s.reserve_a = 0 ∨ s.reserve_b = 0 ∨ x = 0) := by omega
            simp [quote_swap, h1, hout]
          · split at h
            · simp [Except.map] at h
            · split at h
              · simp [Except.map] at h
              · simp [Except.map] at h
  · intro hA hB h
    simp only [swap_b_to_a] at h
    split at h
    · simp [Except.map] at h
    · split at h
      · simp [Except.map] at h
      · split at h
        · simp [Except.map] at h
        · split at h
          · rename_i hact hx0 hres hout
            have h1 : ¬(s.reserve_a = 0 ∨ s.reserve_b = 0 ∨ x = 0) := by omega
            simp [quote_swap, h1, hout]
          · split at h
            · simp [Except.map] at h
            · split at h
              · simp [Except.map] at h
              · simp [Except.map] at h

/-- Claim C10 witness: on the demo pair, the quote for the successful demo
swap is exactly `(9000, 90)`. -/
theorem quote_swap_matches_swap_witness : quote_swap sSwapDemo 10000 true = (9000, 90) := by
  have h : swap_a_to_b sSwapDemo 10000 0 = .ok
      (distribute_fee { sSwapDemo with reserve_a := 110000, reserve_b := 90910 } 90 false,
        9000, 90) := by rfl
  exact (quote_swap_matches_swap sSwapDemo 10000 0).1 _ h

/-- Claim C8 (amended): with the checks applied in the source order, a swap
fails with `InvalidOutput` exactly when `raw_output = 0` or
`raw_output >= reserve_out`; with `OutputTooSmall` exactly when the
`InvalidOutput` condition does not hold and `raw_output - fee = 0`; with
`SlippageExceeded` exactly when neither earlier condition holds and
`user_amount < min_output`; and every failing swap leaves the pair state
unchanged. -/
theorem swap_error_cases (s : PairState) (x m : Nat)
    (hact : s.pair_is_active = true) (hx : 0 < x)
    (hA : 0 < s.reserve_a) (hB : 0 < s.reserve_b) :
    ∀ raw fee, raw = x * s.reserve_b / (s.reserve_a + x) →
      fee = raw * s.fee_percent / 100 →
      ((swap_a_to_b s x m = .error .invalidOutput ↔ (raw = 0 ∨ s.reserve_b ≤ raw)) ∧
       (swap_a_to_b s x m = .error .outputTooSmall ↔
         (0 < raw ∧ raw < s.reserve_b ∧ raw - fee = 0)) ∧
       (swap_a_to_b s x m = .error .slippageExceeded ↔
         (0 < raw ∧ raw < s.reserve_b ∧ 0 < raw - fee ∧ raw - fee < m)) ∧
       (∀ e, swap_a_to_b s x m = .error e → step s (Op.swapABOp x m) = s)) := by
  intro raw fee hraw hfee
  have hswap : swap_a_to_b s x m =
      (if raw = 0 ∨ s.reserve_b ≤ raw then .error .invalidOutput
       else if raw - fee = 0 then .error .outputTooSmall
       else if raw - fee < m then .error .slippageExceeded
       else .ok (distribute_fee { s with reserve_a := s.reserve_a + x,
                                          reserve_b := s.reserve_b - raw } fee false,
                 raw - fee, fee)) := by
    simp only [swap_a_to_b, hact]
    rw [if_neg (by simp), if_neg (by omega), if_neg (by omega), ← hraw, ← hfee]
  refine ⟨?_, ?_, ?_, fun e he => by simp [step, applyOp, he, Except.map]⟩
  · rw [hswap]
    split_ifs with h1 h2 h3
    · exact iff_of_true rfl h1
    · exact iff_of_false (by simp) h1
    · exact iff_of_false (by simp) h1
    · exact iff_of_false (by simp) h1
  · rw [hswap]
    split_ifs with h1 h2 h3
    · exact iff_of_false (by simp) (by omega)
    · exact iff_of_true rfl (by omega)
    · exact iff_of_false (by simp) (by omega)
    · exact iff_of_false (by simp) (by omega)
  · rw [hswap]
    split_ifs with h1 h2 h3
    · exact iff_of_false (by simp) (by omega)
    · exact iff_of_false (by simp) (by omega)
    · exact iff_of_true rfl (by omega)
    · exact iff_of_false (by simp) (by omega)

/-- Claim C8 witness: on the demo pair an input of 1 yields `raw_output = 0`
and the swap fails with `InvalidOutput`, leaving the state unchanged. -/
theorem swap_error_cases_witness :
    swap_a_to_b sSwapDemo 1 1 = .error .invalidOutput ∧
    step sSwapDemo (Op.swapABOp 1 1) = sSwapDemo := by
  obtain ⟨h1, _, _, h4⟩ := swap_error_cases sSwapDemo 1 1 rfl (by decide) (by decide)
    (by decide) 0 0 (by decide) (by decide)
  have he := h1.mpr (Or.inl rfl)
  exact ⟨he, h4 _ he⟩

/-- Claim C8 counterexample: at reserves `(100000, 100000)`, fee 1, input 1,
`min_output = 1`, the computed `raw_output - fee` is 0 and `user_amount`
is below `min_output`, yet the swap fails with `InvalidOutput`, not with
`OutputTooSmall` or `SlippageExceeded`: the three conditions of the claim
overlap and only the first matching one fires. -/
theorem swap_error_priority_counterexample :
    swap_a_to_b sSwapDemo 1 1 = .error .invalidOutput ∧
    swap_a_to_b sSwapDemo 1 1 ≠ .error .outputTooSmall ∧
    swap_a_to_b sSwapDemo 1 1 ≠ .error .slippageExceeded ∧
    1 * sSwapDemo.reserve_b / (sSwapDemo.reserve_a + 1) -
      1 * sSwapDemo.reserve_b / (sSwapDemo.reserve_a + 1) * sSwapDemo.fee_percent / 100
      = 0 ∧
    1 * sSwapDemo.reserve_b / (sSwapDemo.reserve_a + 1) -
      1 * sSwapDemo.reserve_b / (sSwapDemo.reserve_a + 1) * sSwapDemo.fee_percent / 100
      < 1 := by
  have h : swap_a_to_b sSwapDemo 1 1 = .error .invalidOutput := rfl
  refine ⟨h, ?_, ?_, by decide, by decide⟩
  · rw [h]; simp
  · rw [h]; simp

/-! ### Projection corollaries used by the mint theorems -/

@[simp] theorem add_lp_shares_reserve_a (s : PairState) (addr n : Nat) :
    (add_lp_shares s addr n).reserve_a = s.reserve_a :=
  (add_lp_shares_fields s addr n).1

@[simp] theorem add_lp_shares_reserve_b (s : PairState) (addr n : Nat) :
    (add_lp_shares s addr n).reserve_b = s.reserve_b :=
  (add_lp_shares_fields s addr n).2.1

@[simp] theorem add_lp_shares_total (s : PairState) (addr n : Nat) :
    (add_lp_shares s addr n).total_lp_shares = s.total_lp_shares + n :=
  (add_lp_shares_fields s addr n).2.2.2.2.2.1

@[simp] theorem add_lp_shares_list (s : PairState) (addr n : Nat) :
    (add_lp_shares s addr n).lp_list = insert addr s.lp_list :=
  (add_lp_shares_fields s addr n).2.2.2.2.2.2.1

@[simp] theorem cpfi_reserve_a (s : PairState) (addr : Nat) :
    ((claim_pending_fees_internal s addr).1).reserve_a = s.reserve_a :=
  (cpfi_fields s addr).1

@[simp] theorem cpfi_reserve_b (s : PairState) (addr : Nat) :
    ((claim_pending_fees_internal s addr).1).reserve_b = s.reserve_b :=
  (cpfi_fields s addr).2.1

@[simp] theorem cpfi_owner (s : PairState) (addr : Nat) :
    ((claim_pending_fees_internal s addr).1).owner_shares = s.owner_shares :=
  (cpfi_fields s addr).2.2.2.2.1

@[simp] theorem cpfi_total (s : PairState) (addr : Nat) :
    ((claim_pending_fees_internal s addr).1).total_lp_shares = s.total_lp_shares :=
  (cpfi_fields s addr).2.2.2.2.2.1

@[simp] theorem cpfi_list (s : PairState) (addr : Nat) :
    ((claim_pending_fees_internal s addr).1).lp_list = s.lp_list :=
  (cpfi_fields s addr).2.2.2.2.2.2.1

@[simp] theorem cpfi_shares (s : PairState) (addr : Nat) :
    ((claim_pending_fees_internal s addr).1).lp_shares = s.lp_shares :=
  (cpfi_fields s addr).2.2.2.2.2.2.2.1

/-- The source computes the share minimum with a strict-less conditional. -/
theorem ite_lt_eq_min (a b : Nat) : (if a < b then a else b) = min a b := by
  rcases le_or_lt b a with h | h
  · rw [if_neg (by omega), Nat.min_eq_right h]
  · rw [if_pos h, Nat.min_eq_left (le_of_lt h)]

/-- Claim C2: minting into an empty pool credits exactly
`sqrt(amount_a * amount_b) - MINIMUM_LIQUIDITY` shares, consumes both full
amounts with no refund, and fails with `InitialLiquidityTooSmall` whenever
the integer square root does not exceed `MINIMUM_LIQUIDITY = 1000`. -/
theorem mint_empty_pool_spec (s : PairState) (caller amount_a amount_b min_lp_shares : Nat)
    (hact : s.pair_is_active = true) (hA0 : s.reserve_a = 0) (hB0 : s.reserve_b = 0)
    (ha : 0 < amount_a) (hb : 0 < amount_b)
    (hreg : caller ∉ s.lp_list → s.lp_shares caller = 0) :
    MINIMUM_LIQUIDITY = 1000 ∧
    (Nat.sqrt (amount_a * amount_b) ≤ MINIMUM_LIQUIDITY →
      mint s caller amount_a amount_b min_lp_shares = .error .initialLiquidityTooSmall) ∧
    (MINIMUM_LIQUIDITY < Nat.sqrt (amount_a * amount_b) →
      min_lp_shares ≤ Nat.sqrt (amount_a * amount_b) - MINIMUM_LIQUIDITY →
      ∃ t, mint s caller amount_a amount_b min_lp_shares = .ok t ∧
        t.2.shares = Nat.sqrt (amount_a * amount_b) - MINIMUM_LIQUIDITY ∧
        t.2.refund_a = 0 ∧ t.2.refund_b = 0 ∧
        t.1.reserve_a = amount_a ∧ t.1.reserve_b = amount_b ∧
        t.1.lp_shares caller = s.lp_shares caller +
          (Nat.sqrt (amount_a * amount_b) - MINIMUM_LIQUIDITY) ∧
        t.1.total_lp_shares = s.total_lp_shares +
          (Nat.sqrt (amount_a * amount_b) - MINIMUM_LIQUIDITY)) := by
  refine ⟨rfl, ?_, ?_⟩
  · intro hsq
    simp only [mint, hact]
    rw [if_neg (by simp), if_neg (by omega), if_neg (by omega),
        if_pos ⟨hA0, hB0⟩, if_pos hsq]
  · intro hsq hmin
    have hpos : 0 < Nat.sqrt (amount_a * amount_b) - MINIMUM_LIQUIDITY := by omega
    simp only [mint, hact]
    rw [if_neg (by simp), if_neg (by omega), if_neg (by omega),
        if_pos ⟨hA0, hB0⟩, if_neg (by omega)]
    dsimp only
    rw [if_neg (by omega), if_neg (by omega)]
    refine ⟨_, rfl, rfl, rfl, rfl, ?_, ?_, ?_, ?_⟩
    · simp [hA0]
    · simp [hB0]
    · rw [add_lp_shares_balance]
      by_cases hmem : caller ∈ s.lp_list
      · simp [hmem]
      · simp [hmem, hreg hmem]
    · simp

/-- Claim C2 witness: the spec boundary case `amount_a = amount_b = 1000`
fails because `sqrt(1000 * 1000) = 1000` is not greater than 1000. -/
theorem mint_empty_pool_spec_witness :
    mint (initState 1) 9 1000 1000 0 = .error .initialLiquidityTooSmall := by
  have hs : Nat.sqrt (1000 * 1000) ≤ MINIMUM_LIQUIDITY := by
    rw [Nat.sqrt_eq]; decide
  exact (mint_empty_pool_spec (initState 1) 9 1000 1000 0 rfl rfl rfl (by decide)
    (by decide) (fun _ => rfl)).2.1 hs

/-- Claim C3: minting into a pool with positive reserves uses all of the
counterpart of the over-supplied asset, refunds the excess of the over-supplied
asset, mints `min(used_a * T / Ra, used_b * T / Rb)` shares, and grows the
reserves by exactly the used amounts. -/
theorem mint_existing_pool_spec (s : PairState) (caller amount_a amount_b min_lp_shares : Nat)
    (hact : s.pair_is_active = true) (hA : 0 < s.reserve_a) (hB : 0 < s.reserve_b)
    (ha : 0 < amount_a) (hb : 0 < amount_b) :
    ∀ optimal_b optimal_a used_a used_b shares,
      optimal_b = amount_a * s.reserve_b / s.reserve_a →
      optimal_a = amount_b * s.reserve_a / s.reserve_b →
      used_a = (if optimal_b ≤ amount_b then amount_a else optimal_a) →
      used_b = (if optimal_b ≤ amount_b then optimal_b else amount_b) →
      shares = min (used_a * (s.owner_shares + s.total_lp_shares) / s.reserve_a)
                   (used_b * (s.owner_shares + s.total_lp_shares) / s.reserve_b) →
      0 < used_a → 0 < used_b → 0 < shares → min_lp_shares ≤ shares →
      ∃ t, mint s caller amount_a amount_b min_lp_shares = .ok t ∧
        t.2.shares = shares ∧
        t.2.refund_a = (if optimal_b ≤ amount_b then 0 else amount_a - optimal_a) ∧
        t.2.refund_b = (if optimal_b ≤ amount_b then amount_b - optimal_b else 0) ∧
        t.1.reserve_a = s.reserve_a + used_a ∧
        t.1.reserve_b = s.reserve_b + used_b ∧
        t.1.total_lp_shares = s.total_lp_shares + shares := by
  intro optimal_b optimal_a used_a used_b shares hob hoa hua hub hsh hpa hpb hps hmin
  simp only [mint, hact]
  rw [if_neg (by simp), if_neg (by omega), if_neg (by omega), if_neg (by omega),
      ← hob, ← hoa, ← hua, ← hub, if_neg (by omega), ite_lt_eq_min, ← hsh]
  dsimp only
  rw [if_neg (by omega), if_neg (by omega)]
  refine ⟨_, rfl, rfl, rfl, rfl, ?_, ?_, ?_⟩
  · simp
  · simp
  · simp

/-- Claim C3 witness: the spec scenario: pool ratio 2:1 (reserves
`(200, 100)`, 200 shares), caller sends equal amounts `(100, 100)`: the
pool uses `(100, 50)`, refunds 50 of B, and mints 100 shares. -/
theorem mint_existing_pool_spec_witness :
    ∃ t, mint sMintDemo 9 100 100 0 = .ok t ∧
      t.2.shares = 100 ∧ t.2.refund_a = 0 ∧ t.2.refund_b = 50 ∧
      t.1.reserve_a = 300 ∧ t.1.reserve_b = 150 ∧ t.1.total_lp_shares = 300 := by
  obtain ⟨t, h, h1, h2, h3, h4, h5, h6⟩ :=
    mint_existing_pool_spec sMintDemo 9 100 100 0 rfl (by decide) (by decide) (by decide)
      (by decide) 50 200 100 50 100 (by decide) (by decide) (by decide) (by decide)
      (by decide) (by decide) (by decide) (by decide) (by decide)
  refine ⟨t, h, h1, ?_, ?_, ?_, ?_, ?_⟩
  · rw [h2]; decide
  · rw [h3]; decide
  · rw [h4]; decide
  · rw [h5]; decide
  · rw [h6]; decide

/-! ### Transport lemmas for the two state invariants -/

theorem lpLedgerConsistent_congr (s t : PairState) (h1 : t.lp_list = s.lp_list)
    (h2 : t.lp_shares = s.lp_shares) (h3 : t.total_lp_shares = s.total_lp_shares)
    (hs : lpLedgerConsistent s) : lpLedgerConsistent t := by
  obtain ⟨hm, hsum⟩ := hs
  refine ⟨fun a => ?_, ?_⟩
  · rw [h1, h2]; exact hm a
  · rw [h3, h1, h2]; exact hsum

theorem feeIndexBounded_congr (s t : PairState) (h1 : t.lp_list = s.lp_list)
    (h2 : t.lp_entry_index_a = s.lp_entry_index_a)
    (h3 : t.lp_entry_index_b = s.lp_entry_index_b)
    (h4 : s.fee_per_share_a ≤ t.fee_per_share_a)
    (h5 : s.fee_per_share_b ≤ t.fee_per_share_b)
    (hs : feeIndexBounded s) : feeIndexBounded t := by
  intro a ha
  rw [h1] at ha
  rw [h2, h3]
  exact ⟨le_trans (hs a ha).1 h4, le_trans (hs a ha).2 h5⟩

@[simp] theorem add_lp_shares_fps_a (s : PairState) (addr n : Nat) :
    (add_lp_shares s addr n).fee_per_share_a = s.fee_per_share_a :=
  (add_lp_shares_fields s addr n).2.2.2.2.2.2.2.1

@[simp] theorem add_lp_shares_fps_b (s : PairState) (addr n : Nat) :
    (add_lp_shares s addr n).fee_per_share_b = s.fee_per_share_b :=
  (add_lp_shares_fields s addr n).2.2.2.2.2.2.2.2.1

@[simp] theorem cpfi_fps_a (s : PairState) (addr : Nat) :
    ((claim_pending_fees_internal s addr).1).fee_per_share_a = s.fee_per_share_a :=
  (cpfi_fields s addr).2.2.2.2.2.2.2.2.1

@[simp] theorem cpfi_fps_b (s : PairState) (addr : Nat) :
    ((claim_pending_fees_internal s addr).1).fee_per_share_b = s.fee_per_share_b :=
  (cpfi_fields s addr).2.2.2.2.2.2.2.2.2.1

@[simp] theorem distribute_fee_total (s : PairState) (fee : Nat) (ta : Bool) :
    (distribute_fee s fee ta).total_lp_shares = s.total_lp_shares :=
  (distribute_fee_fields s fee ta).2.2.2.2.2.1

@[simp] theorem distribute_fee_list (s : PairState) (fee : Nat) (ta : Bool) :
    (distribute_fee s fee ta).lp_list = s.lp_list :=
  (distribute_fee_fields s fee ta).2.2.2.2.2.2.1

@[simp] theorem distribute_fee_shares (s : PairState) (fee : Nat) (ta : Bool) :
    (distribute_fee s fee ta).lp_shares = s.lp_shares :=
  (distribute_fee_fields s fee ta).2.2.2.2.2.2.2.1

@[simp] theorem distribute_fee_entry_a (s : PairState) (fee : Nat) (ta : Bool) :
    (distribute_fee s fee ta).lp_entry_index_a = s.lp_entry_index_a :=
  (distribute_fee_fields s fee ta).2.2.2.2.2.2.2.2.1

@[simp] theorem distribute_fee_entry_b (s : PairState) (fee : Nat) (ta : Bool) :
    (distribute_fee s fee ta).lp_entry_index_b = s.lp_entry_index_b :=
  (distribute_fee_fields s fee ta).2.2.2.2.2.2.2.2.2.1

theorem add_lp_shares_balance_ne (s : PairState) (addr n a : Nat) (h : a ≠ addr) :
    (add_lp_shares s addr n).lp_shares a = s.lp_shares a := by
  simp only [add_lp_shares]
  split <;> simp [Function.update_noteq h]

theorem track_add_fields (s : PairState) (u : Nat) (b : Bool) :
    (track_pending_user_add s u b).lp_list = s.lp_list ∧
    (track_pending_user_add s u b).lp_shares = s.lp_shares ∧
    (track_pending_user_add s u b).total_lp_shares = s.total_lp_shares ∧
    (track_pending_user_add s u b).lp_entry_index_a = s.lp_entry_index_a ∧
    (track_pending_user_add s u b).lp_entry_index_b = s.lp_entry_index_b ∧
    (track_pending_user_add s u b).fee_per_share_a = s.fee_per_share_a ∧
    (track_pending_user_add s u b).fee_per_share_b = s.fee_per_share_b := by
  unfold track_pending_user_add
  split <;> simp

theorem track_remove_fields (s : PairState) (u : Nat) (b : Bool) :
    (track_pending_user_remove s u b).lp_list = s.lp_list ∧
    (track_pending_user_remove s u b).lp_shares = s.lp_shares ∧
    (track_pending_user_remove s u b).total_lp_shares = s.total_lp_shares ∧
    (track_pending_user_remove s u b).lp_entry_index_a = s.lp_entry_index_a ∧
    (track_pending_user_remove s u b).lp_entry_index_b = s.lp_entry_index_b ∧
    (track_pending_user_remove s u b).fee_per_share_a = s.fee_per_share_a ∧
    (track_pending_user_remove s u b).fee_per_share_b = s.fee_per_share_b := by
  unfold track_pending_user_remove
  split <;> simp

theorem cpfi_entry_a_ne (s : PairState) (addr a : Nat) (h : a ≠ addr) :
    ((claim_pending_fees_internal s addr).1).lp_entry_index_a a = s.lp_entry_index_a a := by
  simp only [claim_pending_fees_internal]
  split
  · rfl
  · split
    · rfl
    · simp [Function.update_noteq h]

theorem cpfi_entry_b_ne (s : PairState) (addr a : Nat) (h : a ≠ addr) :
    ((claim_pending_fees_internal s addr).1).lp_entry_index_b a = s.lp_entry_index_b a := by
  simp only [claim_pending_fees_internal]
  split
  · rfl
  · split
    · rfl
    · simp [Function.update_noteq h]

theorem cpfi_feeIndex (s : PairState) (addr : Nat) (hs : feeIndexBounded s) :
    feeIndexBounded (claim_pending_fees_internal s addr).1 := by
  simp only [claim_pending_fees_internal]
  split
  · exact hs
  · split
    · exact hs
    · intro a ha
      simp only at ha ⊢
      by_cases hax : a = addr
      · subst hax
        simp [Function.update_same]
      · simp only [Function.update_noteq hax]
        exact hs a ha

theorem cpfi_consistent (s : PairState) (addr : Nat) (hs : lpLedgerConsistent s) :
    lpLedgerConsistent (claim_pending_fees_internal s addr).1 :=
  lpLedgerConsistent_congr s _ (cpfi_list s addr) (cpfi_shares s addr) (cpfi_total s addr) hs

theorem distribute_fee_feeIndex (s : PairState) (fee : Nat) (ta : Bool)
    (hs : feeIndexBounded s) : feeIndexBounded (distribute_fee s fee ta) :=
  feeIndexBounded_congr s _ (distribute_fee_list s fee ta) (distribute_fee_entry_a s fee ta)
    (distribute_fee_entry_b s fee ta) (distribute_fee_mono_a s fee ta)
    (distribute_fee_mono_b s fee ta) hs

/-- The helper `add_lp_shares` preserves the share-ledger invariant for
nonzero share credits. -/
theorem add_lp_shares_consistent (s : PairState) (addr n : Nat) (hn : n ≠ 0)
    (hs : lpLedgerConsistent s) : lpLedgerConsistent (add_lp_shares s addr n) := by
  obtain ⟨hmem, hsum⟩ := hs
  constructor
  · intro a
    rw [add_lp_shares_list]
    by_cases hax : a = addr
    · subst hax
      constructor
      · intro _
        rw [add_lp_shares_balance]
        split <;> omega
      · intro _
        exact Finset.mem_insert_self _ _
    · rw [add_lp_shares_balance_ne _ _ _ _ hax, Finset.mem_insert]
      simp only [hax, false_or]
      exact hmem a
  · rw [add_lp_shares_total, add_lp_shares_list]
    by_cases hnew : addr ∈ s.lp_list
    · rw [Finset.insert_eq_self.mpr hnew,
          ← Finset.add_sum_erase _ (add_lp_shares s addr n).lp_shares hnew,
          add_lp_shares_balance, if_pos hnew]
      have herase : ∑ a ∈ s.lp_list.erase addr, (add_lp_shares s addr n).lp_shares a
          = ∑ a ∈ s.lp_list.erase addr, s.lp_shares a :=
        Finset.sum_congr rfl fun a ha =>
          add_lp_shares_balance_ne _ _ _ _ (Finset.ne_of_mem_erase ha)
      have hold : s.lp_shares addr + ∑ a ∈ s.lp_list.erase addr, s.lp_shares a
          = ∑ a ∈ s.lp_list, s.lp_shares a :=
        Finset.add_sum_erase _ _ hnew
      rw [herase]
      omega
    · rw [Finset.sum_insert hnew, add_lp_shares_balance, if_neg hnew]
      have hrest : ∑ a ∈ s.lp_list, (add_lp_shares s addr n).lp_shares a
          = ∑ a ∈ s.lp_list, s.lp_shares a :=
        Finset.sum_congr rfl fun a ha =>
          add_lp_shares_balance_ne _ _ _ _ (fun hcontra => hnew (hcontra ▸ ha))
      rw [hrest]
      omega

/-- The helper `add_lp_shares` preserves the fee-index invariant: the entry
snapshots of a new member are set to the current indices. -/
theorem add_lp_shares_feeIndex (s : PairState) (addr n : Nat)
    (hs : feeIndexBounded s) : feeIndexBounded (add_lp_shares s addr n) := by
  unfold add_lp_shares
  split
  · next hnew =>
    intro a ha
    simp only [Finset.mem_insert] at ha
    by_cases hax : a = addr
    · subst hax
      simp [Function.update_same]
    · simp only [Function.update_noteq hax]
      rcases ha with ha | ha
      · exact absurd ha hax
      · exact hs a ha
  · intro a ha
    exact hs a ha

theorem swap_a_ok_fields (s : PairState) (x m : Nat) (p : PairState × Nat × Nat)
    (h : swap_a_to_b s x m = .ok p) :
    p.1.lp_list = s.lp_list ∧ p.1.lp_shares = s.lp_shares ∧
    p.1.total_lp_shares = s.total_lp_shares ∧
    p.1.lp_entry_index_a = s.lp_entry_index_a ∧
    p.1.lp_entry_index_b = s.lp_entry_index_b ∧
    s.fee_per_share_a ≤ p.1.fee_per_share_a ∧
    s.fee_per_share_b ≤ p.1.fee_per_share_b := by
  simp only [swap_a_to_b] at h
  split at h
  · simp [Except.map] at h
  · split at h
    · simp [Except.map] at h
    · split at h
      · simp [Except.map] at h
      · split at h
        · simp [Except.map] at h
        · split at h
          · simp [Except.map] at h
          · split at h
            · simp [Except.map] at h
            · simp only [Except.ok.injEq] at h
              subst h
              refine ⟨by simp, by simp, by simp, by simp, by simp, ?_, ?_⟩
              · exact distribute_fee_mono_a
                  { s with reserve_a := s.reserve_a + x,
                           reserve_b := s.reserve_b - x * s.reserve_b / (s.reserve_a + x) } _ _
              · exact distribute_fee_mono_b
                  { s with reserve_a := s.reserve_a + x,
                           reserve_b := s.reserve_b - x * s.reserve_b / (s.reserve_a + x) } _ _

theorem swap_b_ok_fields (s : PairState) (x m : Nat) (p : PairState × Nat × Nat)
    (h : swap_b_to_a s x m = .ok p) :
    p.1.lp_list = s.lp_list ∧ p.1.lp_shares = s.lp_shares ∧
    p.1.total_lp_shares = s.total_lp_shares ∧
    p.1.lp_entry_index_a = s.lp_entry_index_a ∧
    p.1.lp_entry_index_b = s.lp_entry_index_b ∧
    s.fee_per_share_a ≤ p.1.fee_per_share_a ∧
    s.fee_per_share_b ≤ p.1.fee_per_share_b := by
  simp only [swap_b_to_a] at h
  split at h
  · simp [Except.map] at h
  · split at h
    · simp [Except.map] at h
    · split at h
      · simp [Except.map] at h
      · split at h
        · simp [Except.map] at h
        · split at h
          · simp [Except.map] at h
          · split at h
            · simp [Except.map] at h
            · simp only [Except.ok.injEq] at h
              subst h
              refine ⟨by simp, by simp, by simp, by simp, by simp, ?_, ?_⟩
              · exact distribute_fee_mono_a
                  { s with reserve_b := s.reserve_b + x,
                           reserve_a := s.reserve_a - x * s.reserve_a / (s.reserve_b + x) } _ _
              · exact distribute_fee_mono_b
                  { s with reserve_b := s.reserve_b + x,
                           reserve_a := s.reserve_a - x * s.reserve_a / (s.reserve_b + x) } _ _

@[simp] theorem track_add_list (s : PairState) (u : Nat) (b : Bool) :
    (track_pending_user_add s u b).lp_list = s.lp_list := (track_add_fields s u b).1

@[simp] theorem track_add_shares (s : PairState) (u : Nat) (b : Bool) :
    (track_pending_user_add s u b).lp_shares = s.lp_shares := (track_add_fields s u b).2.1

@[simp] theorem track_add_total (s : PairState) (u : Nat) (b : Bool) :
    (track_pending_user_add s u b).total_lp_shares = s.total_lp_shares :=
  (track_add_fields s u b).2.2.1

@[simp] theorem track_add_entry_a (s : PairState) (u : Nat) (b : Bool) :
    (track_pending_user_add s u b).lp_entry_index_a = s.lp_entry_index_a :=
  (track_add_fields s u b).2.2.2.1

@[simp] theorem track_add_entry_b (s : PairState) (u : Nat) (b : Bool) :
    (track_pending_user_add s u b).lp_entry_index_b = s.lp_entry_index_b :=
  (track_add_fields s u b).2.2.2.2.1

@[simp] theorem track_add_fps_a (s : PairState) (u : Nat) (b : Bool) :
    (track_pending_user_add s u b).fee_per_share_a = s.fee_per_share_a :=
  (track_add_fields s u b).2.2.2.2.2.1

@[simp] theorem track_add_fps_b (s : PairState) (u : Nat) (b : Bool) :
    (track_pending_user_add s u b).fee_per_share_b = s.fee_per_share_b :=
  (track_add_fields s u b).2.2.2.2.2.2

@[simp] theorem track_remove_list (s : PairState) (u : Nat) (b : Bool) :
    (track_pending_user_remove s u b).lp_list = s.lp_list := (track_remove_fields s u b).1

@[simp] theorem track_remove_shares (s : PairState) (u : Nat) (b : Bool) :
    (track_pending_user_remove s u b).lp_shares = s.lp_shares :=
  (track_remove_fields s u b).2.1

@[simp] theorem track_remove_total (s : PairState) (u : Nat) (b : Bool) :
    (track_pending_user_remove s u b).total_lp_shares = s.total_lp_shares :=
  (track_remove_fields s u b).2.2.1

@[simp] theorem track_remove_entry_a (s : PairState) (u : Nat) (b : Bool) :
    (track_pending_user_remove s u b).lp_entry_index_a = s.lp_entry_index_a :=
  (track_remove_fields s u b).2.2.2.1

@[simp] theorem track_remove_entry_b (s : PairState) (u : Nat) (b : Bool) :
    (track_pending_user_remove s u b).lp_entry_index_b = s.lp_entry_index_b :=
  (track_remove_fields s u b).2.2.2.2.1

@[simp] theorem track_remove_fps_a (s : PairState) (u : Nat) (b : Bool) :
    (track_pending_user_remove s u b).fee_per_share_a = s.fee_per_share_a :=
  (track_remove_fields s u b).2.2.2.2.2.1

@[simp] theorem track_remove_fps_b (s : PairState) (u : Nat) (b : Bool) :
    (track_pending_user_remove s u b).fee_per_share_b = s.fee_per_share_b :=
  (track_remove_fields s u b).2.2.2.2.2.2

/-- Inversion of a successful `mint`: the post state is `add_lp_shares` of
the fee-settled state with the used amounts added to the reserves, and the
credited share amount is nonzero. -/
theorem mint_ok_state (s : PairState) (c a b m : Nat) (p : PairState × MintResult)
    (h : mint s c a b m = .ok p) :
    ∃ ua ub n, n ≠ 0 ∧
      p.1 = add_lp_shares
        { (claim_pending_fees_internal s c).1 with
            reserve_a := (claim_pending_fees_internal s c).1.reserve_a + ua,
            reserve_b := (claim_pending_fees_internal s c).1.reserve_b + ub } c n := by
  simp only [mint] at h
  split at h
  · simp [Except.map] at h
  · split at h
    · simp [Except.map] at h
    · split at h
      · simp [Except.map] at h
      · split at h
        · simp [Except.map] at h
        · next n ua ub ra rb heq =>
          split at h
          · simp [Except.map] at h
          · split at h
            · simp [Except.map] at h
            · next hn0 =>
              simp only [Except.ok.injEq] at h
              subst h
              exact ⟨ua, ub, n, hn0, rfl⟩

/-- Inversion of a successful `finalize_liquidity`: the post state is
`add_lp_shares` of a state whose LP ledger and fee indices agree with the
fee-settled pre state. -/
theorem finalize_ok_state (s : PairState) (c m : Nat) (t : PairState)
    (h : finalize_liquidity s c m = .ok t) :
    ∃ s4 n, n ≠ 0 ∧
      s4.lp_list = s.lp_list ∧ s4.lp_shares = s.lp_shares ∧
      s4.total_lp_shares = s.total_lp_shares ∧
      s4.fee_per_share_a = s.fee_per_share_a ∧ s4.fee_per_share_b = s.fee_per_share_b ∧
      s4.lp_entry_index_a = ((claim_pending_fees_internal s c).1).lp_entry_index_a ∧
      s4.lp_entry_index_b = ((claim_pending_fees_internal s c).1).lp_entry_index_b ∧
      t = add_lp_shares s4 c n := by
  simp only [finalize_liquidity] at h
  split at h
  · simp [Except.map] at h
  · split at h
    · simp [Except.map] at h
    · split at h
      · simp [Except.map] at h
      · split at h
        · simp [Except.map] at h
        · next ua ub n heq =>
          split at h
          · simp [Except.map] at h
          · split at h
            · simp [Except.map] at h
            · next hn0 =>
              simp only [Except.ok.injEq] at h
              refine ⟨_, n, hn0, ?_, ?_, ?_, ?_, ?_, ?_, ?_, h.symm⟩
              · split <;> simp
              · split <;> simp
              · split <;> simp
              · split <;> simp
              · split <;> simp
              · split <;> simp
              · split <;> simp

/-- Inversion of a successful `remove_liquidity`. -/
theorem remove_ok_shape (s : PairState) (c k : Nat) (p : PairState × Nat × Nat)
    (h : remove_liquidity s c k = .ok p) :
    k ≠ 0 ∧ k ≤ s.lp_shares c ∧
    ((s.lp_shares c - k = 0 ∧
        p.1.lp_list = s.lp_list.erase c ∧
        p.1.lp_shares = Function.update s.lp_shares c 0 ∧
        p.1.lp_entry_index_a =
          Function.update ((claim_pending_fees_internal s c).1).lp_entry_index_a c 0 ∧
        p.1.lp_entry_index_b =
          Function.update ((claim_pending_fees_internal s c).1).lp_entry_index_b c 0) ∨
     (s.lp_shares c - k ≠ 0 ∧
        p.1.lp_list = s.lp_list ∧
        p.1.lp_shares = Function.update s.lp_shares c (s.lp_shares c - k) ∧
        p.1.lp_entry_index_a = ((claim_pending_fees_internal s c).1).lp_entry_index_a ∧
        p.1.lp_entry_index_b = ((claim_pending_fees_internal s c).1).lp_entry_index_b)) ∧
    p.1.total_lp_shares = s.total_lp_shares - k ∧
    p.1.fee_per_share_a = s.fee_per_share_a ∧
    p.1.fee_per_share_b = s.fee_per_share_b := by
  simp only [remove_liquidity] at h
  split at h
  · simp [Except.map] at h
  · split at h
    · simp [Except.map] at h
    · split at h
      · simp [Except.map] at h
      · next hlt hk0 hamt =>
        simp only [Except.ok.injEq] at h
        subst h
        refine ⟨hk0, by omega, ?_, ?_, ?_, ?_⟩
        · by_cases hz : s.lp_shares c - k = 0
          · left
            refine ⟨hz, ?_, ?_, ?_, ?_⟩ <;> simp [if_pos hz]
          · right
            refine ⟨hz, ?_, ?_, ?_, ?_⟩ <;> simp [if_neg hz]
        · by_cases hz : s.lp_shares c - k = 0 <;> simp [hz]
        · by_cases hz : s.lp_shares c - k = 0 <;> simp [hz]
        · by_cases hz : s.lp_shares c - k = 0 <;> simp [hz]

theorem remove_ok_consistent (s : PairState) (c k : Nat) (p : PairState × Nat × Nat)
    (h : remove_liquidity s c k = .ok p) (hs : lpLedgerConsistent s) :
    lpLedgerConsistent p.1 := by
  obtain ⟨hk0, hkle, hcase, htot, _, _⟩ := remove_ok_shape s c k p h
  obtain ⟨hmem, hsum⟩ := hs
  have hcmem : c ∈ s.lp_list := (hmem c).mpr (by omega)
  have hble : s.lp_shares c ≤ s.total_lp_shares := by
    rw [hsum]
    exact Finset.single_le_sum (fun i _ => Nat.zero_le _) hcmem
  have hsplit := Finset.add_sum_erase s.lp_list s.lp_shares hcmem
  rcases hcase with ⟨hz, hl, hsh, _, _⟩ | ⟨hz, hl, hsh, _, _⟩
  · constructor
    · intro a
      rw [hl, hsh]
      by_cases hac : a = c
      · subst hac
        simp [Function.update_same]
      · simp only [Function.update_noteq hac, Finset.mem_erase]
        rw [and_iff_right hac]
        exact hmem a
    · rw [htot, hl, hsh]
      have h1 : ∑ a ∈ s.lp_list.erase c, Function.update s.lp_shares c 0 a
          = ∑ a ∈ s.lp_list.erase c, s.lp_shares a :=
        Finset.sum_congr rfl fun a ha =>
          Function.update_noteq (Finset.ne_of_mem_erase ha) _ _
      rw [h1]
      omega
  · constructor
    · intro a
      rw [hl, hsh]
      by_cases hac : a = c
      · subst hac
        simp [Function.update_same, hcmem, hz]
      · rw [Function.update_noteq hac]
        exact hmem a
    · rw [htot, hl, hsh]
      have h1 : ∑ a ∈ s.lp_list, Function.update s.lp_shares c (s.lp_shares c - k) a
          = (s.lp_shares c - k) + ∑ a ∈ s.lp_list.erase c, s.lp_shares a := by
        rw [← Finset.add_sum_erase _ _ hcmem]
        congr 1
        · exact Function.update_same _ _ _
        · exact Finset.sum_congr rfl fun a ha =>
            Function.update_noteq (Finset.ne_of_mem_erase ha) _ _
      rw [h1]
      omega

theorem remove_ok_feeIndex (s : PairState) (c k : Nat) (p : PairState × Nat × Nat)
    (h : remove_liquidity s c k = .ok p) (hs : feeIndexBounded s) :
    feeIndexBounded p.1 := by
  obtain ⟨_, _, hcase, _, hfa, hfb⟩ := remove_ok_shape s c k p h
  have hcp := cpfi_feeIndex s c hs
  rcases hcase with ⟨_, hl, _, hea, heb⟩ | ⟨_, hl, _, hea, heb⟩
  · intro a ha
    rw [hl] at ha
    have hac : a ≠ c := (Finset.mem_erase.mp ha).1
    have ha' : a ∈ s.lp_list := (Finset.mem_erase.mp ha).2
    rw [hea, heb, hfa, hfb, Function.update_noteq hac, Function.update_noteq hac,
        cpfi_entry_a_ne s c a hac, cpfi_entry_b_ne s c a hac]
    exact hs a ha'
  · intro a ha
    rw [hl] at ha
    rw [hea, heb, hfa, hfb]
    have := hcp a (by rw [cpfi_list]; exact ha)
    rw [cpfi_fps_a, cpfi_fps_b] at this
    exact this

/-- Every successful operation preserves the share-ledger invariant. -/
theorem applyOp_consistent (s : PairState) (op : Op) (t : PairState)
    (h : applyOp s op = .ok t) (hs : lpLedgerConsistent s) : lpLedgerConsistent t := by
  cases op with
  | mintOp c a b m =>
    simp only [applyOp] at h
    cases hm : mint s c a b m with
    | error e => rw [hm] at h; simp [Except.map] at h
    | ok p =>
      rw [hm] at h
      simp only [Except.map, Except.ok.injEq] at h
      subst h
      obtain ⟨ua, ub, n, hn, hp⟩ := mint_ok_state s c a b m p hm
      rw [hp]
      exact add_lp_shares_consistent _ _ _ hn
        (lpLedgerConsistent_congr s _ (by simp) (by simp) (by simp) hs)
  | finalizeOp c m =>
    simp only [applyOp] at h
    obtain ⟨s4, n, hn, h1, h2, h3, _, _, _, _, ht⟩ := finalize_ok_state s c m t h
    rw [ht]
    exact add_lp_shares_consistent _ _ _ hn (lpLedgerConsistent_congr s _ h1 h2 h3 hs)
  | removeOp c k =>
    simp only [applyOp] at h
    cases hm : remove_liquidity s c k with
    | error e => rw [hm] at h; simp [Except.map] at h
    | ok p =>
      rw [hm] at h
      simp only [Except.map, Except.ok.injEq] at h
      subst h
      exact remove_ok_consistent s c k p hm hs
  | swapABOp x m =>
    simp only [applyOp] at h
    cases hm : swap_a_to_b s x m with
    | error e => rw [hm] at h; simp [Except.map] at h
    | ok p =>
      rw [hm] at h
      simp only [Except.map, Except.ok.injEq] at h
      subst h
      obtain ⟨h1, h2, h3, _, _, _, _⟩ := swap_a_ok_fields s x m p hm
      exact lpLedgerConsistent_congr s _ h1 h2 h3 hs
  | swapBAOp x m =>
    simp only [applyOp] at h
    cases hm : swap_b_to_a s x m with
    | error e => rw [hm] at h; simp [Except.map] at h
    | ok p =>
      rw [hm] at h
      simp only [Except.map, Except.ok.injEq] at h
      subst h
      obtain ⟨h1, h2, h3, _, _, _, _⟩ := swap_b_ok_fields s x m p hm
      exact lpLedgerConsistent_congr s _ h1 h2 h3 hs
  | claimOp c =>
    simp only [applyOp, claim_lp_fees] at h
    split at h
    · simp [Except.map] at h
    · simp only [Except.map, Except.ok.injEq] at h
      subst h
      exact cpfi_consistent s c hs
  | depositAOp c amt =>
    simp only [applyOp, deposit_pending_a] at h
    split at h
    · simp [Except.map] at h
    · simp only [Except.ok.injEq] at h
      subst h
      exact lpLedgerConsistent_congr s _ (by simp) (by simp) (by simp) hs
  | depositBOp c amt =>
    simp only [applyOp, deposit_pending_b] at h
    split at h
    · simp [Except.map] at h
    · simp only [Except.ok.injEq] at h
      subst h
      exact lpLedgerConsistent_congr s _ (by simp) (by simp) (by simp) hs
  | withdrawAOp c =>
    simp only [applyOp, withdraw_pending_a] at h
    split at h
    · simp [Except.map] at h
    · simp only [Except.map, Except.ok.injEq] at h
      subst h
      exact lpLedgerConsistent_congr s _ (by simp) (by simp) (by simp) hs
  | withdrawBOp c =>
    simp only [applyOp, withdraw_pending_b] at h
    split at h
    · simp [Except.map] at h
    · simp only [Except.map, Except.ok.injEq] at h
      subst h
      exact lpLedgerConsistent_congr s _ (by simp) (by simp) (by simp) hs
  | withdrawAllOp c =>
    simp only [applyOp, withdraw_pending_all] at h
    split at h
    · simp [Except.map] at h
    · simp only [Except.map, Except.ok.injEq] at h
      subst h
      exact lpLedgerConsistent_congr s _ (by simp) (by simp) (by simp) hs
  | ownerRemoveOp k =>
    simp only [applyOp, owner_remove_liquidity] at h
    split at h
    · simp [Except.map] at h
    · split at h
      · simp [Except.map] at h
      · simp only [Except.map, Except.ok.injEq] at h
        subst h
        exact lpLedgerConsistent_congr s _ (by simp) (by simp) (by simp) hs
  | ownerClaimOp =>
    simp only [applyOp, owner_claim_fees] at h
    split at h
    · simp [Except.map] at h
    · simp only [Except.map, Except.ok.injEq] at h
      subst h
      exact lpLedgerConsistent_congr s _ (by simp) (by simp) (by simp) hs
  | setActiveOp b =>
    simp only [applyOp, set_pair_active, Except.ok.injEq] at h
    subst h
    exact lpLedgerConsistent_congr s _ (by simp) (by simp) (by simp) hs
  | setFeeOp f =>
    simp only [applyOp, set_pair_fee] at h
    split at h
    · simp [Except.map] at h
    · simp only [Except.ok.injEq] at h
      subst h
      exact lpLedgerConsistent_congr s _ (by simp) (by simp) (by simp) hs

/-- Every successful operation preserves the fee-index invariant. -/
theorem applyOp_feeIndex (s : PairState) (op : Op) (t : PairState)
    (h : applyOp s op = .ok t) (hs : feeIndexBounded s) : feeIndexBounded t := by
  cases op with
  | mintOp c a b m =>
    simp only [applyOp] at h
    cases hm : mint s c a b m with
    | error e => rw [hm] at h; simp [Except.map] at h
    | ok p =>
      rw [hm] at h
      simp only [Except.map, Except.ok.injEq] at h
      subst h
      obtain ⟨ua, ub, n, hn, hp⟩ := mint_ok_state s c a b m p hm
      rw [hp]
      exact add_lp_shares_feeIndex _ _ _
        (feeIndexBounded_congr _ _ rfl rfl rfl (le_refl _) (le_refl _)
          (cpfi_feeIndex s c hs))
  | finalizeOp c m =>
    simp only [applyOp] at h
    obtain ⟨s4, n, hn, h1, _, _, h4, h5, h6, h7, ht⟩ := finalize_ok_state s c m t h
    rw [ht]
    refine add_lp_shares_feeIndex _ _ _
      (feeIndexBounded_congr ((claim_pending_fees_internal s c).1) s4 ?_ h6 h7 ?_ ?_
        (cpfi_feeIndex s c hs))
    · rw [h1, cpfi_list]
    · rw [h4, cpfi_fps_a]
    · rw [h5, cpfi_fps_b]
  | removeOp c k =>
    simp only [applyOp] at h
    cases hm : remove_liquidity s c k with
    | error e => rw [hm] at h; simp [Except.map] at h
    | ok p =>
      rw [hm] at h
      simp only [Except.map, Except.ok.injEq] at h
      subst h
      exact remove_ok_feeIndex s c k p hm hs
  | swapABOp x m =>
    simp only [applyOp] at h
    cases hm : swap_a_to_b s x m with
    | error e => rw [hm] at h; simp [Except.map] at h
    | ok p =>
      rw [hm] at h
      simp only [Except.map, Except.ok.injEq] at h
      subst h
      obtain ⟨h1, _, _, h4, h5, h6, h7⟩ := swap_a_ok_fields s x m p hm
      exact feeIndexBounded_congr s _ h1 h4 h5 h6 h7 hs
  | swapBAOp x m =>
    simp only [applyOp] at h
    cases hm : swap_b_to_a s x m with
    | error e => rw [hm] at h; simp [Except.map] at h
    | ok p =>
      rw [hm] at h
      simp only [Except.map, Except.ok.injEq] at h
      subst h
      obtain ⟨h1, _, _, h4, h5, h6, h7⟩ := swap_b_ok_fields s x m p hm
      exact feeIndexBounded_congr s _ h1 h4 h5 h6 h7 hs
  | claimOp c =>
    simp only [applyOp, claim_lp_fees] at h
    split at h
    · simp [Except.map] at h
    · simp only [Except.map, Except.ok.injEq] at h
      subst h
      exact cpfi_feeIndex s c hs
  | depositAOp c amt =>
    simp only [applyOp, deposit_pending_a] at h
    split at h
    · simp [Except.map] at h
    · simp only [Except.ok.injEq] at h
      subst h
      exact feeIndexBounded_congr s _ (by simp) (by simp) (by simp) (by simp) (by simp) hs
  | depositBOp c amt =>
    simp only [applyOp, deposit_pending_b] at h
    split at h
    · simp [Except.map] at h
    · simp only [Except.ok.injEq] at h
      subst h
      exact feeIndexBounded_congr s _ (by simp) (by simp) (by simp) (by simp) (by simp) hs
  | withdrawAOp c =>
    simp only [applyOp, withdraw_pending_a] at h
    split at h
    · simp [Except.map] at h
    · simp only [Except.map, Except.ok.injEq] at h
      subst h
      exact feeIndexBounded_congr s _ (by simp) (by simp) (by simp) (by simp) (by simp) hs
  | withdrawBOp c =>
    simp only [applyOp, withdraw_pending_b] at h
    split at h
    · simp [Except.map] at h
    · simp only [Except.map, Except.ok.injEq] at h
      subst h
      exact feeIndexBounded_congr s _ (by simp) (by simp) (by simp) (by simp) (by simp) hs
  | withdrawAllOp c =>
    simp only [applyOp, withdraw_pending_all] at h
    split at h
    · simp [Except.map] at h
    · simp only [Except.map, Except.ok.injEq] at h
      subst h
      exact feeIndexBounded_congr s _ (by simp) (by simp) (by simp) (by simp) (by simp) hs
  | ownerRemoveOp k =>
    simp only [applyOp, owner_remove_liquidity] at h
    split at h
    · simp [Except.map] at h
    · split at h
      · simp [Except.map] at h
      · simp only [Except.map, Except.ok.injEq] at h
        subst h
        exact feeIndexBounded_congr s _ (by simp) (by simp) (by simp) (by simp) (by simp) hs
  | ownerClaimOp =>
    simp only [applyOp, owner_claim_fees] at h
    split at h
    · simp [Except.map] at h
    · simp only [Except.map, Except.ok.injEq] at h
      subst h
      exact feeIndexBounded_congr s _ (by simp) (by simp) (by simp) (by simp) (by simp) hs
  | setActiveOp b =>
    simp only [applyOp, set_pair_active, Except.ok.injEq] at h
    subst h
    exact feeIndexBounded_congr s _ (by simp) (by simp) (by simp) (by simp) (by simp) hs
  | setFeeOp f =>
    simp only [applyOp, set_pair_fee] at h
    split at h
    · simp [Except.map] at h
    · simp only [Except.ok.injEq] at h
      subst h
      exact feeIndexBounded_congr s _ (by simp) (by simp) (by simp) (by simp) (by simp) hs

theorem step_consistent (s : PairState) (op : Op) (hs : lpLedgerConsistent s) :
    lpLedgerConsistent (step s op) := by
  unfold step
  cases happ : applyOp s op with
  | ok t => exact applyOp_consistent s op t happ hs
  | error e => exact hs

theorem step_feeIndex (s : PairState) (op : Op) (hs : feeIndexBounded s) :
    feeIndexBounded (step s op) := by
  unfold step
  cases happ : applyOp s op with
  | ok t => exact applyOp_feeIndex s op t happ hs
  | error e => exact hs

theorem exec_consistent (s : PairState) (ops : List Op) (hs : lpLedgerConsistent s) :
    lpLedgerConsistent (exec s ops) := by
  induction ops generalizing s with
  | nil => exact hs
  | cons op rest ih => exact ih _ (step_consistent s op hs)

theorem exec_feeIndex (s : PairState) (ops : List Op) (hs : feeIndexBounded s) :
    feeIndexBounded (exec s ops) := by
  induction ops generalizing s with
  | nil => exact hs
  | cons op rest ih => exact ih _ (step_feeIndex s op hs)

theorem initState_consistent (f : Nat) : lpLedgerConsistent (initState f) := by
  constructor
  · intro a
    simp [initState]
  · simp [initState]

theorem initState_feeIndex (f : Nat) : feeIndexBounded (initState f) := by
  intro a ha
  simp [initState] at ha

/-- Claim C6: after every sequence of operations on a freshly created pair,
`total_lp_shares` equals the sum of the LP share balances over the
membership set of the pair, and an account is a member exactly when its balance is
nonzero. -/
theorem lp_share_sum_invariant (f : Nat) (ops : List Op) :
    lpLedgerConsistent (exec (initState f) ops) :=
  exec_consistent _ _ (initState_consistent f)

/-- Claim C7: in every state reachable by any sequence of operations on a
freshly created pair, the fee entry-index snapshots of every registered LP
account are bounded by the global fee-per-share indices of the pair on both
asset sides. -/
theorem fee_entry_index_invariant (f : Nat) (ops : List Op) :
    feeIndexBounded (exec (initState f) ops) :=
  exec_feeIndex _ _ (initState_feeIndex f)

end Dex
